/-
Verification of the gospider_plus crawler core against its specification.

The Go source is shallowly embedded: pure Go functions become Lean
functions over String / List / Nat, Go (value, ok) returns become Option,
and stateful components (the request registry, reflection entries) become
explicit state-passing functions.  Go standard-library helpers
(strings.*, net/url, path, mime, crypto/sha1, hash/fnv) are modelled by
executable Lean functions that follow the library algorithms; the models
assume ASCII input where Go would apply Unicode tables.
-/
import Mathlib

set_option maxRecDepth 4096

/-! ## Models of Go string primitives (package strings) -/

/-- The ASCII apostrophe character (codepoint 39). -/
def aposChar : Char := Char.ofNat 39

/-- The ASCII whitespace set trimmed by strings.TrimSpace. -/
def goIsSpace (c : Char) : Bool :=
  c == ' ' || c == '\t' || c == '\n' || c == '\x0b' || c == '\x0c' || c == '\r'

/-- Model of strings.TrimSpace (ASCII whitespace). -/
def goTrimSpace (s : String) : String :=
  String.mk (((s.toList.dropWhile goIsSpace).reverse.dropWhile goIsSpace).reverse)

/-- Model of strings.ToLower (ASCII). -/
def goToLower (s : String) : String :=
  String.mk (s.toList.map Char.toLower)

/-- Model of strings.ToUpper (ASCII). -/
def goToUpper (s : String) : String :=
  String.mk (s.toList.map Char.toUpper)

/-- Model of strings.Trim with an explicit cutset. -/
def goTrimCut (s : String) (cutset : List Char) : String :=
  String.mk (((s.toList.dropWhile (cutset.contains ·)).reverse.dropWhile
    (cutset.contains ·)).reverse)

/-- Is pat a prefix of l (list level)? -/
def listIsPre {α : Type} [DecidableEq α] : List α → List α → Bool
  | [], _ => true
  | _ :: _, [] => false
  | a :: as, b :: bs => a = b && listIsPre as bs

/-- Does l contain pat as a contiguous sublist? -/
def listHasInfix {α : Type} [DecidableEq α] (pat : List α) : List α → Bool
  | [] => listIsPre pat []
  | l@(_ :: t) => listIsPre pat l || listHasInfix pat t

/-- Model of strings.Contains. -/
def strContains (s sub : String) : Bool :=
  listHasInfix sub.toList s.toList

/-- Model of strings.HasPrefix. -/
def strHasPre (s p : String) : Bool :=
  listIsPre p.toList s.toList

/-- Model of strings.HasSuffix. -/
def strHasSuffix (s p : String) : Bool :=
  listIsPre p.toList.reverse s.toList.reverse

/-- First occurrence split, list level: returns (before, after) when found. -/
def listCut {α : Type} [DecidableEq α] (pat : List α) : List α → Option (List α × List α)
  | [] => if pat = [] then some ([], []) else none
  | l@(a :: t) =>
    if listIsPre pat l then some ([], l.drop pat.length)
    else match listCut pat t with
      | some (pre, post) => some (a :: pre, post)
      | none => none

/-- Model of strings.Cut: (before, after, found). -/
def strCut (s sep : String) : String × String × Bool :=
  match listCut sep.toList s.toList with
  | some (pre, post) => (String.mk pre, String.mk post, true)
  | none => (s, "", false)

/-- Count of non-overlapping occurrences (model of strings.Count, pat nonempty),
with fuel bounded by the list length. -/
def listCountAux {α : Type} [DecidableEq α] (pat : List α) : Nat → List α → Nat
  | 0, _ => 0
  | _ + 1, [] => 0
  | fuel + 1, l@(_ :: t) =>
    if listIsPre pat l then 1 + listCountAux pat fuel (l.drop pat.length)
    else listCountAux pat fuel t

/-- Model of strings.Count for a nonempty pattern. -/
def strCount (s sub : String) : Nat :=
  listCountAux sub.toList s.toList.length s.toList

/-- Lexicographic comparison of character lists (the order of Go string
comparison). -/
def listLe : List Char → List Char → Bool
  | [], _ => true
  | _ :: _, [] => false
  | x :: xs, y :: ys => if x = y then listLe xs ys else decide (x < y)

/-- Go string less-or-equal. -/
def strLeB (a b : String) : Bool := listLe a.toList b.toList

/-- Insert into a sorted list. -/
def insertSorted (x : String) : List String → List String
  | [] => [x]
  | y :: ys => if strLeB x y then x :: y :: ys else y :: insertSorted x ys

/-- Model of sort.Strings.  Implemented as an insertion sort: for a total
order any sorting algorithm returns the same list, so this is
observationally the Go sort. -/
def sortStrings (l : List String) : List String :=
  l.foldr insertSorted []

/-- Helper for dedupeSortedStrings: drop elements equal to the last kept one. -/
def dedupAux : String → List String → List String
  | _, [] => []
  | last, v :: vs => if v = last then dedupAux last vs else v :: dedupAux v vs

/-- Model of registry dedupeSortedStrings: on a sorted slice, keep the first of
each run of equal values (the Go len < 2 early return is behaviourally the
same as the general recursion). -/
def dedupeSortedStrings : List String → List String
  | [] => []
  | v :: vs => v :: dedupAux v vs

/-! ## Percent escaping (models of net/url escape helpers) -/

/-- Upper-case hex digit for escaping (net/url upperhex). -/
def hexDigitUpper (n : Nat) : Char :=
  ("0123456789ABCDEF".toList).getD n '0'

/-- Lower-case hex digit (encoding/hex). -/
def hexDigitLower (n : Nat) : Char :=
  ("0123456789abcdef".toList).getD n '0'

/-- %XX escape of one byte, upper-case hex as in net/url. -/
def pctByte (b : Nat) : List Char :=
  ['%', hexDigitUpper (b / 16), hexDigitUpper (b % 16)]

/-- Byte classes kept verbatim by url.QueryEscape: alphanumerics and -_.~ . -/
def isUnreservedByte (b : Nat) : Bool :=
  (65 ≤ b && b ≤ 90) || (97 ≤ b && b ≤ 122) || (48 ≤ b && b ≤ 57) ||
    b == 45 || b == 95 || b == 46 || b == 126

/-- UTF-8 encoding of one character (byte values as Nat). -/
def utf8EncodeChar (c : Char) : List Nat :=
  let n := c.toNat
  if n < 128 then [n]
  else if n < 2048 then [192 + n / 64, 128 + n % 64]
  else if n < 65536 then
    [224 + n / 4096, 128 + (n / 64) % 64, 128 + n % 64]
  else
    [240 + n / 262144, 128 + (n / 4096) % 64, 128 + (n / 64) % 64,
      128 + n % 64]

/-- UTF-8 bytes of a string. -/
def utf8Bytes (s : String) : List Nat :=
  s.toList.foldr (fun c acc => utf8EncodeChar c ++ acc) []

/-- Model of url.QueryEscape over the UTF-8 bytes of s. -/
def queryEscape (s : String) : String :=
  String.mk ((utf8Bytes s).foldr
    (fun n acc =>
      if isUnreservedByte n then Char.ofNat n :: acc
      else if n = 32 then '+' :: acc
      else pctByte n ++ acc) [])

/-- Hex digit value of a character, if any. -/
def hexVal (c : Char) : Option Nat :=
  if '0' ≤ c ∧ c ≤ '9' then some (c.toNat - '0'.toNat)
  else if 'a' ≤ c ∧ c ≤ 'f' then some (c.toNat - 'a'.toNat + 10)
  else if 'A' ≤ c ∧ c ≤ 'F' then some (c.toNat - 'A'.toNat + 10)
  else none

/-- Character-level percent decoding shared by the unescape models.
plusToSpace selects query-component decoding ('+' becomes ' ').
Fails (none) on a malformed escape, as url.QueryUnescape does. -/
def pctDecode (plusToSpace : Bool) : List Char → Option (List Char)
  | [] => some []
  | '%' :: a :: b :: rest =>
    match hexVal a, hexVal b with
    | some ha, some hb =>
      (pctDecode plusToSpace rest).map (Char.ofNat (ha * 16 + hb) :: ·)
    | _, _ => none
  | '%' :: _ :: [] => none
  | '%' :: [] => none
  | c :: rest =>
    if plusToSpace && c == '+' then (pctDecode plusToSpace rest).map (' ' :: ·)
    else (pctDecode plusToSpace rest).map (c :: ·)

/-- Model of url.QueryUnescape. -/
def queryUnescape (s : String) : Option String :=
  (pctDecode true s.toList).map String.mk

/-- Model of the path-mode unescape performed by url.URL.setPath
('+' is kept verbatim). -/
def pathUnescape (s : String) : Option String :=
  (pctDecode false s.toList).map String.mk

/-! ## crypto/sha1 model -/

/-- Truncation to 32 bits. -/
def w32 (n : Nat) : Nat := n % 4294967296

/-- 32-bit left rotation (input assumed < 2^32). -/
def rotl32 (n k : Nat) : Nat := w32 (n * 2 ^ k) + n / 2 ^ (32 - k)

/-- Split a byte list into 64-byte chunks (fuel bounds the chunk count). -/
def chunks64Aux : Nat → List Nat → List (List Nat)
  | 0, _ => []
  | _ + 1, [] => []
  | fuel + 1, l => l.take 64 :: chunks64Aux fuel (l.drop 64)

/-- Split a byte list into 64-byte chunks. -/
def chunks64 (l : List Nat) : List (List Nat) :=
  chunks64Aux l.length l

/-- Big-endian 32-bit words from bytes. -/
def words16 : List Nat → List Nat
  | a :: b :: c :: d :: rest =>
    (a * 16777216 + b * 65536 + c * 256 + d) :: words16 rest
  | _ => []

/-- Big-endian 8-byte encoding of a Nat. -/
def bigEndian8 (n : Nat) : List Nat :=
  (List.range 8).map (fun i => n / 2 ^ (8 * (7 - i)) % 256)

/-- SHA-1 message padding. -/
def sha1pad (msg : List Nat) : List Nat :=
  let z := (120 - ((msg.length + 1) % 64)) % 64
  msg ++ [128] ++ List.replicate z 0 ++ bigEndian8 (msg.length * 8)

/-- Extend 16 words to 80; newest-first accumulator. -/
def sha1Extend : Nat → List Nat → List Nat
  | 0, acc => acc
  | fuel + 1, acc =>
    let v := Nat.xor (Nat.xor (acc.getD 2 0) (acc.getD 7 0))
      (Nat.xor (acc.getD 13 0) (acc.getD 15 0))
    sha1Extend fuel (rotl32 v 1 :: acc)

/-- One SHA-1 round step; i selects the round function and constant. -/
def sha1Round (i : Nat) (st : Nat × Nat × Nat × Nat × Nat) (wi : Nat) :
    Nat × Nat × Nat × Nat × Nat :=
  let (a, b, c, d, e) := st
  let f :=
    if i < 20 then Nat.lor (Nat.land b c) (Nat.land (Nat.xor b 4294967295) d)
    else if i < 40 then Nat.xor (Nat.xor b c) d
    else if i < 60 then Nat.lor (Nat.lor (Nat.land b c) (Nat.land b d)) (Nat.land c d)
    else Nat.xor (Nat.xor b c) d
  let k :=
    if i < 20 then 1518500249
    else if i < 40 then 1859775393
    else if i < 60 then 2400959708
    else 3395469782
  let tmp := w32 (rotl32 a 5 + f + e + k + wi)
  (tmp, a, rotl32 b 30, c, d)

/-- Fold the 80-word schedule through the round function. -/
def sha1Rounds : Nat → List Nat → Nat × Nat × Nat × Nat × Nat →
    Nat × Nat × Nat × Nat × Nat
  | _, [], st => st
  | i, wi :: ws, st =>
    let (a, b, c, d, e) := sha1Round i st wi
    sha1Rounds (i + 1) ws (a, b, c, d, e)

/-- Process one 64-byte chunk. -/
def sha1Chunk (h : Nat × Nat × Nat × Nat × Nat) (chunk : List Nat) :
    Nat × Nat × Nat × Nat × Nat :=
  let ws0 := words16 chunk
  let ws := (sha1Extend 64 ws0.reverse).reverse
  let (h0, h1, h2, h3, h4) := h
  let (a, b, c, d, e) := sha1Rounds 0 ws (h0, h1, h2, h3, h4)
  (w32 (h0 + a), w32 (h1 + b), w32 (h2 + c), w32 (h3 + d), w32 (h4 + e))

/-- Lower-case hex of a 32-bit word. -/
def wordHexLower (n : Nat) : List Char :=
  (List.range 8).map (fun i => hexDigitLower (n / 16 ^ (7 - i) % 16))

/-- SHA-1 digest of a byte list, lower-case hex (crypto/sha1 + encoding/hex). -/
def sha1HexBytes (msg : List Nat) : String :=
  let init : Nat × Nat × Nat × Nat × Nat :=
    (1732584193, 4023233417, 2562383102, 271733878, 3285377520)
  let (h0, h1, h2, h3, h4) := (chunks64 (sha1pad msg)).foldl sha1Chunk init
  String.mk (wordHexLower h0 ++ wordHexLower h1 ++ wordHexLower h2 ++
    wordHexLower h3 ++ wordHexLower h4)

/-- SHA-1 hex digest of a string's UTF-8 bytes. -/
def sha1Hex (s : String) : String := sha1HexBytes (utf8Bytes s)

/-! ## hash/fnv FNV-1a 64-bit model -/

/-- Truncation to 64 bits. -/
def w64 (n : Nat) : Nat := n % 18446744073709551616

/-- FNV-1a 64-bit hash of a string's UTF-8 bytes. -/
def fnv1a64 (s : String) : Nat :=
  (utf8Bytes s).foldl
    (fun h b => w64 (Nat.xor h b * 1099511628211)) 14695981039346656037

/-! ## net/url model -/

/-- Model of url.URL restricted to the fields the crawler uses
(User, ForceQuery, OmitHost are not modelled; Opq is Go's opaque part). -/
structure GoURL where
  Scheme : String := ""
  Opq : String := ""
  Host : String := ""
  Path : String := ""
  RawPath : String := ""
  RawQuery : String := ""
  Fragment : String := ""
deriving DecidableEq, Repr

/-- Model of net/url getScheme; none is a parse error
("missing protocol scheme"). -/
def getSchemeAux (orig : List Char) (acc : List Char) :
    List Char → Option (String × List Char)
  | [] => some ("", orig)
  | c :: rest =>
    if c.isAlpha then getSchemeAux orig (c :: acc) rest
    else if c.isDigit || c == '+' || c == '-' || c == '.' then
      if acc = [] then some ("", orig) else getSchemeAux orig (c :: acc) rest
    else if c = ':' then
      if acc = [] then none else some (String.mk acc.reverse, rest)
    else some ("", orig)

/-- Characters net/url accepts unescaped in a host (unescape, encodeHost). -/
def allowedHostChar (c : Char) : Bool :=
  c.isAlphanum ||
    c ∈ ['-', '_', '.', '~', '!', '$', '&', aposChar, '(', ')', '*', '+', ',',
      ';', '=', ':', '[', ']', '<', '>', '"']

/-- Split a host into (hostname, port) as url.URL.Hostname/Port do:
the part after the last colon is the port when it is all digits. -/
def splitHostPort (host : String) : String × String :=
  match listCut [':'] host.toList.reverse with
  | some (revPort, revName) =>
    if revPort.all Char.isDigit then
      (String.mk revName.reverse, String.mk revPort.reverse)
    else (host, "")
  | none => (host, "")

/-- Model of url.URL.Hostname. -/
def hostnameOf (host : String) : String := (splitHostPort host).1

/-- Model of url.URL.Port. -/
def portOf (host : String) : String := (splitHostPort host).2

/-- Model of parseAuthority/parseHost: take the part after the last @,
validate characters and the optional port.  Percent escapes in hosts are
not modelled and are rejected. -/
def parseAuthorityModel (authority : List Char) : Option String :=
  let host := match listCut ['@'] authority.reverse with
    | some (revHost, _) => revHost.reverse
    | none => authority
  if ¬ host.all allowedHostChar then none
  else
    match listCut [':'] host.reverse with
    | some (revPort, _) =>
      if revPort.all Char.isDigit then some (String.mk host) else none
    | none => some (String.mk host)

/-- Bytes escape(s, encodePath) keeps verbatim. -/
def allowedPathByte (b : Nat) : Bool :=
  isUnreservedByte b ||
    b == 36 || b == 38 || b == 43 || b == 44 || b == 47 || b == 58 ||
    b == 59 || b == 61 || b == 64

/-- Model of escape(s, encodePath). -/
def escapePath (s : String) : String :=
  String.mk ((utf8Bytes s).foldr
    (fun b acc =>
      if allowedPathByte b then Char.ofNat b :: acc
      else pctByte b ++ acc) [])

/-- Bytes escape(s, encodeFragment) keeps verbatim. -/
def allowedFragByte (b : Nat) : Bool :=
  allowedPathByte b || b == 63

/-- Model of escape(s, encodeFragment). -/
def escapeFragment (s : String) : String :=
  String.mk ((utf8Bytes s).foldr
    (fun b acc =>
      if allowedFragByte b then Char.ofNat b :: acc
      else pctByte b ++ acc) [])

/-- Model of validEncoded(s, encodePath). -/
def validEncodedPath (s : String) : Bool :=
  s.toList.all (fun c =>
    c ∈ ['!', '$', '&', aposChar, '(', ')', '*', '+', ',', ';', '=', ':', '@',
      '[', ']', '%'] || allowedPathByte c.toNat)

/-- Model of url.URL.EscapedPath (the Path = "*" special case is not
modelled). -/
def escapedPathOf (u : GoURL) : String :=
  if u.RawPath ≠ "" ∧ validEncodedPath u.RawPath ∧
      pathUnescape u.RawPath = some u.Path then u.RawPath
  else escapePath u.Path

/-- Model of url.Parse (no User, ForceQuery, OmitHost, IPv6 or escaped
hosts; control characters, bad escapes, bad ports and bad schemes are
parse errors as in net/url). -/
def parseURL (rawURL : String) : Option GoURL :=
  let cs := rawURL.toList
  if cs.any (fun c => c.toNat < 32 || c.toNat == 127) then none
  else
    let (beforeFrag, frag) := match listCut ['#'] cs with
      | some (pre, post) => (pre, post)
      | none => (cs, [])
    match pctDecode false frag with
    | none => none
    | some fragDecoded =>
      match getSchemeAux beforeFrag [] beforeFrag with
      | none => none
      | some (scheme0, rest0) =>
        let scheme := goToLower scheme0
        let (rest1, rawQuery) := match listCut ['?'] rest0 with
          | some (pre, post) => (pre, post)
          | none => (rest0, [])
        if ¬ listIsPre ['/'] rest1 ∧ scheme ≠ "" then
          some { Scheme := scheme, Opq := String.mk rest1,
                 RawQuery := String.mk rawQuery,
                 Fragment := String.mk fragDecoded }
        else
          let firstSegOk : Bool :=
            if ¬ listIsPre ['/'] rest1 then
              match listCut ['/'] rest1 with
              | some (seg, _) => ¬ seg.contains ':'
              | none => ¬ rest1.contains ':'
            else true
          if ¬ firstSegOk then none
          else
            let hasAuthority :=
              listIsPre ['/', '/'] rest1 ∧
                (scheme ≠ "" ∨ ¬ listIsPre ['/', '/', '/'] rest1)
            let (authority, rest2) :=
              if hasAuthority then
                match listCut ['/'] (rest1.drop 2) with
                | some (auth, post) => (auth, '/' :: post)
                | none => (rest1.drop 2, [])
              else ([], rest1)
            let hostRes := if hasAuthority then parseAuthorityModel authority
              else some ""
            match hostRes with
            | none => none
            | some host =>
              match pctDecode false rest2 with
              | none => none
              | some pathDecoded =>
                let rawPathStr := String.mk rest2
                let pathStr := String.mk pathDecoded
                some { Scheme := scheme, Host := host, Path := pathStr,
                       RawPath := if escapePath pathStr = rawPathStr then ""
                         else rawPathStr,
                       RawQuery := String.mk rawQuery,
                       Fragment := String.mk fragDecoded }

/-- Model of url.URL.String (escaped hosts identical to themselves since
parsing validated them). -/
def urlString (u : GoURL) : String :=
  let pathStr := escapedPathOf u
  let core :=
    if u.Opq ≠ "" then u.Opq
    else
      let hostPart :=
        if u.Scheme ≠ "" ∨ u.Host ≠ "" then
          (if u.Host ≠ "" ∨ u.Path ≠ "" then "//" else "") ++ u.Host
        else ""
      let slash :=
        if pathStr ≠ "" ∧ ¬ strHasPre pathStr "/" ∧ u.Host ≠ "" then "/" else ""
      let colonSeg : Bool :=
        match listCut ['/'] pathStr.toList with
        | some (seg, _) => seg.contains ':'
        | none => pathStr.toList.contains ':'
      let dotSlash :=
        if u.Scheme = "" ∧ hostPart = "" ∧ slash = "" ∧ colonSeg = true then "./"
        else ""
      hostPart ++ slash ++ dotSlash ++ pathStr
  (if u.Scheme ≠ "" then u.Scheme ++ ":" else "") ++ core ++
    (if u.RawQuery ≠ "" then "?" ++ u.RawQuery else "") ++
    (if u.Fragment ≠ "" then "#" ++ escapeFragment u.Fragment else "")

/-! ## path.Clean model and the netutil normalisers -/

/-- Split on a separator character, model of strings.Split with a
one-character separator (and of String.splitOn here). -/
def splitCharAux (sep : Char) : List Char → List Char → List String
  | [], acc => [String.mk acc.reverse]
  | x :: rest, acc =>
    if x = sep then String.mk acc.reverse :: splitCharAux sep rest []
    else splitCharAux sep rest (x :: acc)

/-- Split a string on one separator character. -/
def splitOnChar (s : String) (sep : Char) : List String :=
  splitCharAux sep s.toList []

/-- Stack step of path.Clean. -/
def pathCleanStep (rooted : Bool) (stack : List String) (comp : String) :
    List String :=
  if comp = "" ∨ comp = "." then stack
  else if comp = ".." then
    match stack.reverse with
    | [] => if rooted then [] else [".."]
    | last :: _ =>
      if last = ".." then stack ++ [".."]
      else stack.dropLast
  else stack ++ [comp]

/-- Model of path.Clean (lexical cleaning; "." for an empty result). -/
def pathCleanGo (p : String) : String :=
  if p = "" then "." else
  let rooted := strHasPre p "/"
  let comps := splitOnChar p '/'
  let stack := comps.foldl (pathCleanStep rooted) []
  let out := String.intercalate "/" stack
  if rooted then "/" ++ out
  else if out = "" then "." else out

/-- Model of the netutil curlyBracketDecoder
(strings.NewReplacer %7B/%7b/%7D/%7d to braces), single left-to-right pass. -/
def curlyReplace : List Char → List Char
  | [] => []
  | '%' :: '7' :: c :: rest =>
    if c = 'B' ∨ c = 'b' then '\x7b' :: curlyReplace rest
    else if c = 'D' ∨ c = 'd' then '\x7d' :: curlyReplace rest
    else '%' :: '7' :: curlyReplace (c :: rest)
  | c :: rest => c :: curlyReplace rest

/-- Add one value for a key to an association of query values
(insertion order of url.Values construction). -/
def appendVal : List (String × List String) → String → String →
    List (String × List String)
  | [], k, v => [(k, [v])]
  | (k0, vs) :: rest, k, v =>
    if k0 = k then (k0, vs ++ [v]) :: rest
    else (k0, vs) :: appendVal rest k v

/-- Segment loop of url.ParseQuery; none when any segment errors
(semicolon or bad escape), in which case NormalizeQuery keeps the raw
query. -/
def parseQuerySegs (acc : List (String × List String)) :
    List String → Option (List (String × List String))
  | [] => some acc
  | seg :: rest =>
    if strContains seg ";" then none
    else if seg = "" then parseQuerySegs acc rest
    else
      let (k, v, _) := strCut seg "="
      match queryUnescape k, queryUnescape v with
      | some k1, some v1 => parseQuerySegs (appendVal acc k1 v1) rest
      | _, _ => none

/-- Model of url.ParseQuery as an association list keyed by first
occurrence (Go stores a map; the code sorts keys before use, so the
ordering of this list is never observable). -/
def goParseQuery (query : String) : Option (List (String × List String)) :=
  if query = "" then some []
  else parseQuerySegs [] (splitOnChar query '&')

/-- Values for one key in the parsed query (Go map indexing). -/
def lookupVals (values : List (String × List String)) (k : String) :
    List String :=
  (values.lookup k).getD []

/-- netutil appendQueryComponent on a string accumulator
(builder.Len() > 0 becomes acc not empty). -/
def appendQueryComponent (acc key value : String) : String :=
  (if acc = "" then "" else acc ++ "&") ++ key ++
    (if value ≠ "" then "=" ++ value else "")

/-- netutil.NormalizeQuery. -/
def NormalizeQuery (raw : String) : String :=
  match goParseQuery raw with
  | none => raw
  | some values =>
    let keys := sortStrings (values.map Prod.fst)
    keys.foldl
      (fun acc k =>
        let vals := dedupeSortedStrings (sortStrings (lookupVals values k))
        let escapedKey := queryEscape k
        if vals = [] then appendQueryComponent acc escapedKey ""
        else vals.foldl
          (fun a v => appendQueryComponent a escapedKey (queryEscape v)) acc)
      ""

/-- netutil.NormalizeDisplayURL. -/
def NormalizeDisplayURL (raw : String) : String :=
  if raw = "" then raw
  else match parseURL raw with
  | none => String.mk (curlyReplace raw.toList)
  | some parsed0 =>
    let parsed1 :=
      if parsed0.RawQuery ≠ "" then
        { parsed0 with RawQuery := NormalizeQuery parsed0.RawQuery }
      else parsed0
    let parsed2 := { parsed1 with Path := String.mk (curlyReplace parsed1.Path.toList) }
    String.mk (curlyReplace (urlString parsed2).toList)

/-- netutil.NormalizePathComponent. -/
def NormalizePathComponent (p : String) : String :=
  if p = "" then "/"
  else
    let clean := pathCleanGo p
    let clean := if ¬ strHasPre clean "/" then "/" ++ clean else clean
    NormalizeDisplayURL clean

/-! ## The request registry (package registry) -/

/-- registry.hashContentString: SHA-1 hex of the trimmed content, empty
hash for blank content. -/
def hashContentString (content : String) : String :=
  let trimmed := goTrimSpace content
  if trimmed = "" then "" else sha1Hex trimmed

/-- registry.hashContent (response bytes modelled as a string). -/
def hashContent (content : String) : String :=
  if content.length = 0 then "" else hashContentString content

/-- registry.normalizeHost (guarded nil receiver never occurs here). -/
def normalizeHost (u : GoURL) : String :=
  let host := goToLower (hostnameOf u.Host)
  let port := portOf u.Host
  if port = "" then host
  else if (u.Scheme = "http" ∧ port = "80") ∨
      (u.Scheme = "https" ∧ port = "443") then host
  else host ++ ":" ++ port

/-- The method normalisation step of canonicalRequestKey: upper-cased,
trimmed, defaulting to GET. -/
def canonicalMethod (method : String) : String :=
  let m0 := goToUpper (goTrimSpace method)
  if m0 = "" then "GET" else m0

/-- registry.canonicalRequestKey. -/
def canonicalRequestKey (method rawURL body : String) : String :=
  let m := canonicalMethod method
  if rawURL = "" then ""
  else match parseURL rawURL with
  | none => m ++ " " ++ goTrimSpace rawURL
  | some parsed0 =>
    let parsed1 := { parsed0 with Fragment := "" }
    let parsed2 := { parsed1 with Scheme := goToLower parsed1.Scheme }
    let parsed3 := { parsed2 with Host := normalizeHost parsed2 }
    let parsed4 := { parsed3 with Path := NormalizePathComponent parsed3.Path }
    let parsed5 :=
      if parsed4.RawQuery ≠ "" then
        { parsed4 with RawQuery := NormalizeQuery parsed4.RawQuery }
      else parsed4
    let canonicalURL := NormalizeDisplayURL (urlString parsed5)
    let hash := hashContentString body
    if hash ≠ "" then m ++ " " ++ canonicalURL ++ " body:" ++ hash
    else m ++ " " ++ canonicalURL

/-! ## Registry state machine -/

/-- Modelled from the spec: stringset.StringFilter, whose implementation
is not among the provided sources (only stringset/filter_test.go is).
Spec section 4.2 describes an atomic insert-if-absent membership store
("returns true iff the canonical key was already present; inserts
otherwise"), and the package test requires case-insensitive matching, so
keys are lower-cased before the set is consulted. -/
structure StringFilter where
  members : List String := []
deriving DecidableEq, Repr

/-- Modelled from the spec: StringFilter.Duplicate — membership test plus
insertion, case-insensitive. -/
def filterDuplicate (f : StringFilter) (s : String) : Bool × StringFilter :=
  let key := goToLower s
  if f.members.contains key then (true, f)
  else (false, { members := key :: f.members })

/-- registry.URLRegistry state (sync.Once/mutex initialisation collapses
to eagerly initialised empty state). -/
structure URLRegistry where
  filter : StringFilter := {}
  respHashes : List (String × String) := []
deriving DecidableEq, Repr

/-- Map assignment m[k] = v for an association list. -/
def setAssoc : List (String × String) → String → String → List (String × String)
  | [], k, v => [(k, v)]
  | (k0, v0) :: rest, k, v =>
    if k0 = k then (k0, v) :: rest else (k0, v0) :: setAssoc rest k v

/-- registry.URLRegistry.DuplicateRequest. -/
def DuplicateRequest (r : URLRegistry) (method rawURL body : String) :
    Bool × URLRegistry :=
  let key := canonicalRequestKey method rawURL body
  if key = "" then (false, r)
  else
    let (b, f) := filterDuplicate r.filter key
    (b, { r with filter := f })

/-- registry.URLRegistry.Duplicate. -/
def Duplicate (r : URLRegistry) (raw : String) : Bool × URLRegistry :=
  DuplicateRequest r "GET" raw ""

/-- registry.URLRegistry.MarkResponse (response bytes as a string). -/
def MarkResponse (r : URLRegistry) (method rawURL : String) (body : String) :
    Bool × URLRegistry :=
  let key := canonicalRequestKey method rawURL ""
  if key = "" then (false, r)
  else
    let hash := hashContent body
    match r.respHashes.lookup key with
    | some previous =>
      if previous = hash then (true, r)
      else (false, { r with respHashes := setAssoc r.respHashes key hash })
    | none => (false, { r with respHashes := setAssoc r.respHashes key hash })

/-- One registry operation, for stating invariants over call sequences. -/
inductive RegOp where
  | dupReq (method rawURL body : String)
  | markResp (method rawURL : String) (body : String)
  | dup (raw : String)
deriving DecidableEq, Repr

/-- State transition of one registry operation. -/
def regStep (r : URLRegistry) : RegOp → URLRegistry
  | .dupReq m u b => (DuplicateRequest r m u b).2
  | .markResp m u b => (MarkResponse r m u b).2
  | .dup raw => (Duplicate r raw).2

/-- Run a sequence of registry operations. -/
def regRun (r : URLRegistry) : List RegOp → URLRegistry
  | [] => r
  | op :: ops => regRun (regStep r op) ops

/-! ## Reflection entries (core/crawler_advanced.go) -/

/-- The sentinel parameter name gospider_ref. -/
def reflectedParamName : String := "gospider_ref"

/-- core reflectionEntry (the variant at crawler_advanced.go:488 with
mutatedMarkers). -/
structure ReflectionEntry where
  baselineSet : Bool := false
  mutatedSet : Bool := false
  baselineHash : String := ""
  mutatedHash : String := ""
  baselineStatus : Nat := 0
  mutatedStatus : Nat := 0
  baselineLen : Nat := 0
  mutatedLen : Nat := 0
  mutatedContains : Bool := false
  url : String := ""
  method : String := ""
  origin : String := ""
  param : String := ""
  payload : String := ""
  mutatedMarkers : List String := []
  emitted : Bool := false
deriving DecidableEq, Repr

/-- core reflectionFinding. -/
structure ReflectionFinding where
  URL : String
  Method : String
  Origin : String
  Status : Nat
  Length : Nat
  Param : String
  Payload : String
  Reasons : List String
deriving DecidableEq, Repr

/-- core appendUniqueMarker. -/
def appendUniqueMarker (list : List String) (marker : String) : List String :=
  if list.contains marker then list else list ++ [marker]

/-- core reflectionEntry.evaluate (crawler_advanced.go:1202); returns the
optional finding and the updated entry (emitted set on success). -/
def evaluateEntry (entry : ReflectionEntry) :
    Option ReflectionFinding × ReflectionEntry :=
  if ¬ entry.baselineSet ∨ ¬ entry.mutatedSet ∨ entry.emitted then (none, entry)
  else
    let reasons : List String :=
      if entry.mutatedContains ∧ entry.mutatedMarkers = [] then
        appendUniqueMarker [] "payload-reflected"
      else []
    let reasons := entry.mutatedMarkers.foldl appendUniqueMarker reasons
    let reasons :=
      if entry.baselineHash ≠ entry.mutatedHash then
        appendUniqueMarker reasons "body-delta"
      else reasons
    if reasons = [] then (none, entry)
    else
      (some { URL := entry.url, Method := entry.method, Origin := entry.origin,
              Status := entry.mutatedStatus, Length := entry.mutatedLen,
              Param := entry.param, Payload := entry.payload,
              Reasons := reasons },
       { entry with emitted := true })

/-- Data a baseline response handler writes into the entry. -/
structure BaselineObs where
  hash : String := ""
  status : Nat := 0
  len : Nat := 0
  method : String := ""
  origin : String := ""
  param : String := ""
  payload : String := ""
deriving DecidableEq, Repr

/-- Data a mutated (reflected) response handler writes into the entry. -/
structure MutatedObs where
  hash : String := ""
  status : Nat := 0
  len : Nat := 0
  contains : Bool := false
  markers : List String := []
  url : String := ""
  method : String := ""
  origin : String := ""
  param : String := ""
  payload : String := ""
deriving DecidableEq, Repr

/-- Field updates of the baseline response handler
(crawler_advanced.go:1090 region), followed by evaluate. -/
def applyBaseline (entry : ReflectionEntry) (o : BaselineObs) :
    Option ReflectionFinding × ReflectionEntry :=
  let e := { entry with baselineSet := true, baselineHash := o.hash,
                        baselineStatus := o.status, baselineLen := o.len }
  let e := if e.method = "" then { e with method := o.method } else e
  let e := if e.origin = "" then { e with origin := o.origin } else e
  let e := if e.param = "" then { e with param := o.param } else e
  let e := if e.payload = "" then { e with payload := o.payload } else e
  evaluateEntry e

/-- Field updates of handleReflectedResponse
(crawler_advanced.go:1122 region), followed by evaluate. -/
def applyMutated (entry : ReflectionEntry) (o : MutatedObs) :
    Option ReflectionFinding × ReflectionEntry :=
  let e := { entry with mutatedSet := true, mutatedHash := o.hash,
                        mutatedStatus := o.status, mutatedLen := o.len,
                        mutatedContains := o.contains,
                        mutatedMarkers := o.markers, url := o.url }
  let e := if e.method = "" then { e with method := o.method } else e
  let e := if e.origin = "" then { e with origin := o.origin } else e
  let e := if o.param ≠ "" then { e with param := o.param } else e
  let e := if o.payload ≠ "" then { e with payload := o.payload } else e
  evaluateEntry e

/-- One observation applied to a reflection entry. -/
inductive ReflObs where
  | baseline (o : BaselineObs)
  | mutated (o : MutatedObs)
deriving DecidableEq, Repr

/-- Apply one observation. -/
def reflStep (entry : ReflectionEntry) :
    ReflObs → Option ReflectionFinding × ReflectionEntry
  | .baseline o => applyBaseline entry o
  | .mutated o => applyMutated entry o

/-- Apply a sequence of observations, collecting the emitted findings. -/
def reflRun (entry : ReflectionEntry) :
    List ReflObs → ReflectionEntry × List ReflectionFinding
  | [] => (entry, [])
  | obs :: rest =>
    let (finding, e1) := reflStep entry obs
    let (e2, fs) := reflRun e1 rest
    (e2, (match finding with | some f => [f] | none => []) ++ fs)

/-! ## DOM model (core/output.go) -/

/-- A parsed HTML node (HTML parsing itself is the external
goquery/x net html collaborator; the signature works on the parsed tree). -/
inductive HNode where
  | elem (tag : String) (attrs : List (String × String)) (children : List HNode)
  | text (s : String)

mutual

/-- goquery Selection.Text: concatenated text of all descendant text
nodes, in document order. -/
def textContent : HNode → String
  | .elem _ _ cs => textContentList cs
  | .text s => s

/-- Text of a node list. -/
def textContentList : List HNode → String
  | [] => ""
  | n :: rest => textContent n ++ textContentList rest

end

mutual

/-- Elements of a subtree in document (preorder) order, self included. -/
def elementsPre : HNode → List HNode
  | .elem t a cs => .elem t a cs :: elementsPreList cs
  | .text _ => []

/-- Elements of a forest in document order. -/
def elementsPreList : List HNode → List HNode
  | [] => []
  | n :: rest => elementsPre n ++ elementsPreList rest

end

/-- Features contributed by one element in ComputeDOMSignature's
Find("*") callback. -/
def featuresStep (features : List String) (node : HNode) : List String :=
  match node with
  | .text _ => features
  | .elem tag0 attrs _ =>
    let tag := goToLower tag0
    if tag = "" then features
    else
      let features := features ++ ["tag:" ++ tag]
      let features := attrs.foldl
        (fun fs p =>
          let name := goToLower p.1
          if name = "" then fs
          else if strHasPre name "data-" then fs
          else if name = "style" then fs
          else fs ++ ["attr:" ++ name]) features
      if tag ≠ "script" ∧ tag ≠ "style" ∧
          goTrimSpace (textContent node) ≠ "" then
        features ++ ["text:present"]
      else features

/-- EachWithBreak loop: stop after an element pushes the feature count to
2048 or beyond. -/
def collectFeaturesLoop (features : List String) : List HNode → List String
  | [] => features
  | el :: rest =>
    let features := featuresStep features el
    if features.length ≥ 2048 then features
    else collectFeaturesLoop features rest

/-- core simhash: 64-bit SimHash over FNV-1a feature hashes. -/
def simhash (features : List String) : Nat :=
  if features = [] then 0
  else
    (List.range 64).foldl
      (fun acc i =>
        let weight : Int := features.foldl
          (fun s f => if Nat.testBit (fnv1a64 f) i then s + 1 else s - 1) 0
        if 0 ≤ weight then acc + 2 ^ i else acc) 0

/-- core ComputeDOMSignature on a parsed document forest. -/
def ComputeDOMSignature (doc : List HNode) : Nat :=
  let features := collectFeaturesLoop [] (elementsPreList doc)
  let features := if features = [] then ["empty"] else features
  simhash features

/-- core HammingDistance (bits.OnesCount64 of the xor). -/
def HammingDistance (a b : Nat) : Nat :=
  (List.range 64).foldl
    (fun acc i => acc + (if Nat.testBit (Nat.xor a b) i then 1 else 0)) 0

/-! ## Form extraction (core forms) -/

/-- core JSRequest (headers as an association list standing for the Go
map; map iteration order is never observable in the embedded code paths
because keys are sorted before use). -/
structure JSRequest where
  Method : String := ""
  RawURL : String := ""
  Body : String := ""
  Headers : List (String × String) := []
  ContentType : String := ""
  Source : String := ""
  Events : List String := []
deriving DecidableEq, Repr

/-- core FormField. -/
structure FormField where
  Name : String
  Value : String
deriving DecidableEq, Repr

/-- core formValueHints. -/
def formValueHints : List (String × String) :=
  [("email", "gospider@example.com"), ("username", "gospider"),
   ("user", "gospider"), ("name", "gospider"), ("firstname", "gospider"),
   ("lastname", "tester"), ("search", "gospider"), ("query", "gospider"),
   ("q", "gospider"), ("token", "gospider_token"), ("id", "1"),
   ("phone", "5551234567"), ("zip", "12345"), ("address", "1 Spider Street")]

/-- core defaultFormValue. -/
def defaultFormValue (name inputType current : String) : String :=
  if current ≠ "" then current
  else
    let key := goToLower name
    match formValueHints.lookup key with
    | some hint => hint
    | none =>
      let t := goToLower inputType
      if t = "email" then "gospider@example.com"
      else if t = "password" then "G0sp!der"
      else if t = "search" then "gospider"
      else if t = "url" then "https://example.com"
      else if t = "number" then "1"
      else if strContains key "mail" then "gospider@example.com"
      else if strContains key "name" then "gospider"
      else "gospider"

/-- goquery Attr on an element. -/
def attrOf (n : HNode) (name : String) : Option String :=
  match n with
  | .elem _ attrs _ => attrs.lookup name
  | .text _ => none

/-- goquery AttrOr. -/
def attrOr (n : HNode) (name dflt : String) : String :=
  (attrOf n name).getD dflt

/-- Is the node an element with the given tag? -/
def isTag (tag : String) : HNode → Bool
  | .elem t _ _ => t = tag
  | .text _ => false

/-- goquery Find(tag) under one element: matching descendants in document
order (self excluded). -/
def findDesc (tag : String) : HNode → List HNode
  | .elem _ _ cs => (elementsPreList cs).filter (isTag tag)
  | .text _ => []

/-- The input element pass of extractFormFields. -/
def inputField (s : HNode) : Option FormField :=
  match attrOf s "name" with
  | none => none
  | some name =>
    let value := attrOr s "value" ""
    let inputType := goToLower (attrOr s "type" "")
    if inputType = "checkbox" ∨ inputType = "radio" then
      if (attrOf s "checked").isNone then none
      else
        let value := if value = "" then "on" else value
        let value :=
          if value = "" then defaultFormValue name inputType value else value
        some { Name := name, Value := value }
    else if inputType = "submit" ∨ inputType = "button" ∨
        inputType = "image" ∨ inputType = "reset" ∨ inputType = "file" then
      none
    else
      some { Name := name, Value := defaultFormValue name inputType value }

/-- The select option scan of extractFormFields (EachWithBreak: stop at
the first selected option). -/
def selectValue : List HNode → String → String
  | [], v => v
  | opt :: rest, v =>
    if (attrOf opt "selected").isSome then
      attrOr opt "value" (goTrimSpace (textContent opt))
    else if v = "" then
      selectValue rest (attrOr opt "value" (goTrimSpace (textContent opt)))
    else selectValue rest v

/-- core extractFormFields. -/
def extractFormFields (sel : HNode) : List FormField :=
  let inputs := (findDesc "input" sel).foldl
    (fun fs s => match inputField s with
      | some f => fs ++ [f]
      | none => fs) []
  let withTextareas := (findDesc "textarea" sel).foldl
    (fun fs s => match attrOf s "name" with
      | some name =>
        let value := goTrimSpace (textContent s)
        fs ++ [{ Name := name,
                 Value := defaultFormValue name "textarea" value : FormField }]
      | none => fs) inputs
  (findDesc "select" sel).foldl
    (fun fs s => match attrOf s "name" with
      | some name =>
        let value := selectValue (findDesc "option" s) ""
        fs ++ [{ Name := name,
                 Value := defaultFormValue name "select" value : FormField }]
      | none => fs) withTextareas

/-! ## url.Values and reference resolution -/

/-- url.Values.Set: replace the value slice of a key. -/
def valuesSet : List (String × List String) → String → String →
    List (String × List String)
  | [], k, v => [(k, [v])]
  | (k0, vs) :: rest, k, v =>
    if k0 = k then (k0, [v]) :: rest else (k0, vs) :: valuesSet rest k v

/-- url.Values.Encode: sorted keys, escaped key=value pairs joined by &. -/
def valuesEncode (values : List (String × List String)) : String :=
  let keys := sortStrings (values.map Prod.fst)
  String.intercalate "&"
    (keys.foldr
      (fun k acc =>
        (((values.lookup k).getD []).map
          (fun v => queryEscape k ++ "=" ++ queryEscape v)) ++ acc) [])

/-- Model of net/url resolvePath (merge and remove dot segments; the
result is always rooted). -/
def resolvePathGo (base ref : String) : String :=
  let full :=
    if ref = "" then base
    else if strHasPre ref "/" then ref
    else
      let baseDir := String.mk
        ((base.toList.reverse.dropWhile (· ≠ '/')).reverse)
      baseDir ++ ref
  if full = "" then ""
  else
    let comps := (splitOnChar full '/').drop 1
    let stack := comps.foldl
      (fun st c =>
        if c = "" ∨ c = "." then st
        else if c = ".." then st.dropLast
        else st ++ [c]) []
    let trailing : Bool :=
      match comps.getLast? with
      | some c => c = "" || c = "." || c = ".."
      | none => true
    "/" ++ String.intercalate "/" stack ++
      (if trailing ∧ stack ≠ [] then "/" else "")

/-- Model of url.URL.ResolveReference. -/
def resolveReference (u ref : GoURL) : GoURL :=
  let out := ref
  let out := if ref.Scheme = "" then { out with Scheme := u.Scheme } else out
  if ref.Scheme ≠ "" ∨ ref.Host ≠ "" then
    { out with Path := resolvePathGo (escapedPathOf ref) "" }
  else if ref.Opq ≠ "" then
    { out with Host := "", Path := "" }
  else
    let out :=
      if ref.Path = "" ∧ ref.RawQuery = "" then
        { out with RawQuery := u.RawQuery,
                   Fragment := if ref.Fragment = "" then u.Fragment
                     else ref.Fragment }
      else out
    { out with Host := u.Host,
               Path := resolvePathGo (escapedPathOf u) (escapedPathOf ref) }

/-- Model of strings.EqualFold (ASCII). -/
def strEqualFold (a b : String) : Bool :=
  goToLower a = goToLower b

/-! ## Form request synthesis (core forms continued) -/

/-- core buildFormRequest. -/
def buildFormRequest (action method : String) (fields : List FormField)
    (base : Option GoURL) : Option JSRequest :=
  let resolved := goTrimSpace action
  let resolved :=
    match base with
    | some b => if resolved = "" then urlString b else resolved
    | none => resolved
  let resolvedOpt : Option String :=
    match base with
    | some b =>
      match parseURL resolved with
      | some u => some (urlString (resolveReference b u))
      | none => none
    | none => some resolved
  match resolvedOpt with
  | none => none
  | some resolved =>
    if resolved = "" then none
    else
      let m0 := goToUpper (goTrimSpace method)
      let m := if m0 = "" then "GET" else m0
      let req : JSRequest := { Method := m, RawURL := resolved }
      let values := fields.foldl
        (fun vs f => if f.Name = "" then vs else valuesSet vs f.Name f.Value) []
      if values = [] then some req
      else
        let encoded := valuesEncode values
        if strEqualFold m "GET" then
          if strContains resolved "?" then
            some { req with RawURL := resolved ++ "&" ++ encoded }
          else some { req with RawURL := resolved ++ "?" ++ encoded }
        else
          some { req with Body := encoded,
                          ContentType := "application/x-www-form-urlencoded" }

/-- JSON string escaping as encoding/json produces it (HTML escaping on,
lower-case hex). -/
def jsonEscapeChar (c : Char) : List Char :=
  if c = '"' then ['\\', '"']
  else if c = '\\' then ['\\', '\\']
  else if c = '\n' then ['\\', 'n']
  else if c = '\r' then ['\\', 'r']
  else if c = '\t' then ['\\', 't']
  else if c.toNat < 32 then
    ['\\', 'u', '0', '0', hexDigitLower (c.toNat / 16),
      hexDigitLower (c.toNat % 16)]
  else if c = '<' then ['\\', 'u', '0', '0', '3', 'c']
  else if c = '>' then ['\\', 'u', '0', '0', '3', 'e']
  else if c = '&' then ['\\', 'u', '0', '0', '2', '6']
  else [c]

/-- JSON escape of a whole string. -/
def jsonEscape (s : String) : String :=
  String.mk (s.toList.foldr (fun c acc => jsonEscapeChar c ++ acc) [])

/-- json.Marshal of a map of strings: keys sorted, entries quoted. -/
def jsonMarshalMap (assoc : List (String × String)) : String :=
  let keys := sortStrings (assoc.map Prod.fst)
  "\x7b" ++ String.intercalate ","
    (keys.map (fun k =>
      "\"" ++ jsonEscape k ++ "\":\"" ++ jsonEscape ((assoc.lookup k).getD "")
        ++ "\"")) ++ "\x7d"

/-- core buildJSONFormBody. -/
def buildJSONFormBody (fields : List FormField) : String :=
  if fields = [] then ""
  else
    let payload := fields.foldl
      (fun m f => if f.Name = "" then m else setAssoc m f.Name f.Value) []
    if payload = [] then "" else jsonMarshalMap payload

/-- core buildMultipartFormBody; nanos models time.Now().UnixNano() in the
fmt.Sprintf boundary. -/
def buildMultipartFormBody (fields : List FormField) (nanos : Nat) :
    String × String :=
  if fields = [] then ("", "")
  else
    let boundary := "gospider-" ++ Nat.repr nanos
    let body := fields.foldl
      (fun acc f =>
        if f.Name = "" then acc
        else acc ++ "--" ++ boundary ++ "\r\n" ++
          "Content-Disposition: form-data; name=\"" ++ f.Name ++
          "\"\r\n\r\n" ++ f.Value ++ "\r\n") ""
    (body ++ "--" ++ boundary ++ "--", boundary)

/-- core buildFuzzFormBody. -/
def buildFuzzFormBody (fields : List FormField) : String :=
  if fields = [] then ""
  else
    let values := fields.foldl
      (fun vs f =>
        if f.Name = "" then vs else valuesSet vs f.Name ("FUZZ_" ++ f.Name)) []
    if values = [] then "" else valuesEncode values

/-- core ExtractFormRequests (the goquery selection is the parsed form
element; nanos feeds the multipart boundary). -/
def ExtractFormRequests (sel : HNode) (base : Option GoURL) (nanos : Nat) :
    List JSRequest :=
  let action := attrOr sel "action" ""
  let methodAttr := attrOr sel "method" "GET"
  let fields := extractFormFields sel
  match buildFormRequest action methodAttr fields base with
  | none => []
  | some req =>
    let requests := [req]
    let requests :=
      if strEqualFold req.Method "GET" then
        requests ++ [{ req with Method := "HEAD", Body := "",
                                ContentType := "" }]
      else requests
    let requests :=
      if strEqualFold req.Method "POST" then
        let requests :=
          let jsonBody := buildJSONFormBody fields
          if jsonBody ≠ "" then
            requests ++ [{ req with Body := jsonBody,
                                    ContentType := "application/json" }]
          else requests
        let requests :=
          let (multipartBody, boundary) := buildMultipartFormBody fields nanos
          if multipartBody ≠ "" then
            requests ++ [{ req with Body := multipartBody,
                                    ContentType :=
                                      "multipart/form-data; boundary=" ++
                                        boundary }]
          else requests
        let requests :=
          let fuzzBody := buildFuzzFormBody fields
          if fuzzBody ≠ "" then requests ++ [{ req with Body := fuzzBody }]
          else requests
        requests ++ [{ req with Body := "", ContentType := req.ContentType }]
      else requests
    requests.map
      (fun r =>
        if r.Events = [] then { r with Events := ["input", "change", "paste"] }
        else r)

/-! ## internal/crawler buildRequestKey -/

/-- internal/crawler buildRequestKey: the dedup key of a synthetic
request.  The header value is looked up with the lower-cased key, exactly
as in the source (req.Headers[k] after k was lower-cased). -/
def buildRequestKey (req : JSRequest) : String :=
  let base := req.Method ++ " " ++ req.RawURL ++ " " ++ req.Body
  let withHeaders :=
    if req.Headers ≠ [] then
      let keys := sortStrings (req.Headers.map (fun p => goToLower p.1))
      keys.foldl
        (fun acc k => acc ++ " " ++ k ++ "=" ++ ((req.Headers.lookup k).getD ""))
        base
    else base
  if req.ContentType ≠ "" then withHeaders ++ " ct=" ++ req.ContentType
  else withHeaders

/-! ## Multipart payload mutation (core/crawler_advanced.go) -/

/-- Model of strings.TrimSuffix. -/
def trimSuffixStr (s suf : String) : String :=
  if strHasSuffix s suf then
    String.mk (s.toList.take (s.toList.length - suf.toList.length))
  else s

/-- One media-type parameter chunk: key=value, key lower-cased, value
optionally double-quoted. -/
def mediaParamChunk (chunk : String) : Option (String × String) :=
  let t := goTrimSpace chunk
  if t = "" then none
  else
    let (k, v, found) := strCut t "="
    if ¬ found then none
    else
      let key := goToLower (goTrimSpace k)
      let value := goTrimSpace v
      let value :=
        if strHasPre value "\"" ∧ strHasSuffix value "\"" ∧ 2 ≤ value.length
        then String.mk ((value.toList.drop 1).dropLast)
        else value
      some (key, value)

/-- Model of mime.ParseMediaType for the simple shapes the crawler
produces (type; key=value; ...). -/
def parseMediaType (ct : String) : Option (String × List (String × String)) :=
  match splitOnChar ct ';' with
  | [] => none
  | mt :: rest =>
    let mediaType := goToLower (goTrimSpace mt)
    if mediaType = "" then none
    else
      let params := rest.foldl
        (fun acc chunk =>
          match acc with
          | none => none
          | some ps =>
            match mediaParamChunk chunk with
            | some p => some (ps ++ [p])
            | none => none)
        (some [])
      params.map (fun ps => (mediaType, ps))

/-- core reflectionMutation. -/
structure ReflectionMutation where
  Request : JSRequest
  Param : String
  Payload : String
deriving DecidableEq, Repr

/-- core fuzzMultipartBody; the next() payload generator is modelled by a
list whose head is the single value the function draws. -/
def fuzzMultipartBody (req : JSRequest) (contentType : String)
    (payloads : List String) : List ReflectionMutation :=
  match parseMediaType contentType with
  | none => []
  | some (mediaType, params) =>
    if ¬ strContains mediaType "multipart/form-data" then []
    else
      let boundary := (params.lookup "boundary").getD ""
      if boundary = "" then []
      else
        match payloads.head? with
        | none => []
        | some payload =>
          let terminator := "--" ++ boundary ++ "--"
          let body0 := trimSuffixStr req.Body terminator
          let body1 :=
            if ¬ strHasSuffix body0 "\r\n" then body0 ++ "\r\n" else body0
          let newBody :=
            body1 ++ "--" ++ boundary ++
              "\\r\\nContent-Disposition: form-data; name=\"" ++
              reflectedParamName ++ "\"\\r\\n\\r\\n" ++ payload ++
              "\r\n--" ++ boundary ++ "--"
          let mutated := { req with Body := newBody }
          let mutated :=
            if mutated.ContentType = "" then
              { mutated with ContentType := mediaType ++ "; boundary=" ++
                boundary }
            else mutated
          [{ Request := mutated, Param := reflectedParamName,
             Payload := payload }]

/-! ## URL normaliser (core NormalizeURL and helpers) -/

/-- strings.ReplaceAll of the two-character pattern // by / (one
non-overlapping left-to-right pass). -/
def collapseOnce : List Char → List Char
  | '/' :: '/' :: rest => '/' :: collapseOnce rest
  | x :: rest => x :: collapseOnce rest
  | [] => []

/-- The slash-collapsing loop of cleanPath (for strings.Contains ...
ReplaceAll), with fuel bounded by the string length, which dominates the
number of passes. -/
def collapseSlashesAux : Nat → String → String
  | 0, s => s
  | fuel + 1, s =>
    if strContains s "//" then
      collapseSlashesAux fuel (String.mk (collapseOnce s.toList))
    else s

/-- Collapse repeated slashes to one. -/
def collapseSlashes (s : String) : String :=
  collapseSlashesAux s.length s

/-- strings.ReplaceAll of backslashes by slashes. -/
def backslashToSlash (s : String) : String :=
  String.mk (s.toList.map (fun c => if c = '\\' then '/' else c))

/-- core equalSegmentSlices. -/
def equalSegmentSlices (a b : List String) : Bool :=
  if a.length ≠ b.length then false
  else (a.zip b).all (fun p => p.1 = p.2)

/-- The repeat scan of hasPathLoops over lower-cased segments (repeat
counter, threshold 3). -/
def runScanAux : String → Nat → List String → Bool
  | _, _, [] => false
  | prev, rep, x :: rest =>
    if x = prev then
      if rep + 1 ≥ 3 then true else runScanAux x (rep + 1) rest
    else runScanAux x 1 rest

/-- Consecutive-identical-segment detection of hasPathLoops. -/
def runScan : List String → Bool
  | [] => false
  | x :: rest => runScanAux x 1 rest

/-- Inner loop of hasRepeatedCycle: walk block-compare positions from one
start, counting consecutive equal blocks. -/
def cycleInnerAux (segments : List String) (cycleLen threshold n start : Nat) :
    Nat → Nat → Nat → Bool
  | 0, _, _ => false
  | fuel + 1, pos, repeats =>
    if pos + cycleLen ≤ n then
      if equalSegmentSlices ((segments.drop start).take cycleLen)
          ((segments.drop pos).take cycleLen) then
        if repeats + 1 ≥ threshold then true
        else cycleInnerAux segments cycleLen threshold n start fuel
          (pos + cycleLen) (repeats + 1)
      else false
    else false

/-- core hasRepeatedCycle. -/
def hasRepeatedCycle (segments : List String) (cycleLen threshold : Nat) :
    Bool :=
  let n := segments.length
  if n < cycleLen * threshold then false
  else
    (List.range (n - cycleLen * threshold + 1)).any
      (fun start =>
        cycleInnerAux segments cycleLen threshold n start n
          (start + cycleLen) 1)

/-- core hasPathLoops. -/
def hasPathLoops (segments : List String) : Bool :=
  if segments.length > 128 then true
  else
    let lower := segments.map goToLower
    if runScan lower then true
    else
      ([2, 3, 4].filter (fun L => L * 3 ≤ lower.length)).any
        (fun L => hasRepeatedCycle lower L 3)

/-- The dot-segment processing of cleanPath, producing the segment list. -/
def cleanSegmentsOf (trimmed : String) : List String :=
  (splitOnChar trimmed '/').foldl
    (fun segs part =>
      if part = "" ∨ part = "." then segs
      else if part = ".." then
        if segs ≠ [] then segs.dropLast else segs
      else segs ++ [part]) []

/-- The segment list cleanPath derives from a raw path (slash
normalisation, trim, dot processing). -/
def cleanSegments (p : String) : List String :=
  let p := goTrimSpace p
  if p = "" then []
  else
    let p := backslashToSlash p
    let p := collapseSlashes p
    cleanSegmentsOf (goTrimCut p ['/'])

/-- core cleanPath ((string, bool) return as Option). -/
def cleanPath (p : String) : Option String :=
  let p := goTrimSpace p
  if p = "" then some "/"
  else
    let p := backslashToSlash p
    let p := collapseSlashes p
    let trailingSlash := strHasSuffix p "/"
    let trimmed := goTrimCut p ['/']
    if trimmed = "" then some "/"
    else
      let segments := cleanSegmentsOf trimmed
      if segments = [] then some "/"
      else if hasPathLoops segments then none
      else
        let normalized := "/" ++ String.intercalate "/" segments
        if normalized.length > 2048 then none
        else if trailingSlash ∧ normalized ≠ "/" then some (normalized ++ "/")
        else some normalized

/-- core linkExclusionFragments. -/
def linkExclusionFragments : List String :=
  ["wp-content", "wp-includes", "woocommerce", "captcha", "node_modules",
   "spinner.gif", "fontawesome", "gravatar", "schema.org", "gstatic.com",
   "cloudfront.net/static"]

/-- core fileExtensionExclusions (map keys). -/
def fileExtensionExclusions : List String :=
  [".zip", ".dmg", ".rpm", ".deb", ".gz", ".tar", ".tar.gz", ".jpg",
   ".jpeg", ".png", ".gif", ".svg", ".bmp", ".ico", ".woff", ".woff2",
   ".ttf", ".otf", ".eot", ".mp3", ".mp4", ".avi", ".mov", ".mpeg",
   ".css", ".scss", ".less", ".exe"]

/-- Model of path.Ext. -/
def pathExt (p : String) : String :=
  let pre := p.toList.reverse.takeWhile (· ≠ '/')
  let beforeDot := pre.takeWhile (· ≠ '.')
  if beforeDot.length = pre.length then ""
  else String.mk ('.' :: beforeDot.reverse)

/-- core shouldExclude. -/
def shouldExclude (u : GoURL) : Bool :=
  let pathLower := goToLower u.Path
  if linkExclusionFragments.any (fun frag => strContains pathLower frag) then
    true
  else
    let ext := goToLower (pathExt u.Path)
    if ext ≠ "" then fileExtensionExclusions.contains ext else false

/-- core hasRecursiveQuery. -/
def hasRecursiveQuery (u : GoURL) : Bool :=
  if u.RawQuery = "" then false
  else if u.RawQuery.length > 4096 then true
  else
    let hostLower := goToLower (hostnameOf u.Host)
    let rawLower := goToLower u.RawQuery
    if hostLower ≠ "" ∧ strCount rawLower hostLower ≥ 3 then true
    else if strCount rawLower "http%3a%2f%2f" +
        strCount rawLower "https%3a%2f%2f" ≥ 3 then true
    else
      match queryUnescape u.RawQuery with
      | none => false
      | some decoded =>
        let dl := goToLower decoded
        if hostLower ≠ "" ∧ strCount dl hostLower ≥ 3 then true
        else if strCount dl "http://" ≥ 3 ∨ strCount dl "https://" ≥ 3 then
          true
        else strCount dl "404;" ≥ 3

/-- The wrapping-character cutset stripped by NormalizeURL
(double quote, single quote, angle brackets, square brackets, parens,
braces, space). -/
def wrapCutset : List Char :=
  ['"', aposChar, '<', '>', '[', ']', '(', ')', '\x7b', '\x7d', ' ']

/-- The early phase of core NormalizeURL: trims, scheme filters,
protocol-relative handling, unwrapping, parse/resolve against the base,
scheme and host inheritance, host requirement, fragment drop. -/
def parseResolve (base : Option GoURL) (candidate0 : String) : Option GoURL :=
  let candidate := goTrimSpace candidate0
  if candidate = "" then none
  else
    let lower := goToLower candidate
    if strHasPre lower "javascript:" ∨ strHasPre lower "mailto:" ∨
        strHasPre lower "data:" then none
    else
      let candidate :=
        if strHasPre candidate "//" then
          match base with
          | some b => b.Scheme ++ ":" ++ candidate
          | none => "http:" ++ candidate
        else candidate
      let candidate := goTrimCut candidate wrapCutset
      if candidate = "" then none
      else
        let resolvedOpt :=
          match base with
          | some b => (parseURL candidate).map (fun u => resolveReference b u)
          | none => parseURL candidate
        match resolvedOpt with
        | none => none
        | some r =>
          let r :=
            match base with
            | some b =>
              let r := if r.Scheme = "" then { r with Scheme := b.Scheme }
                else r
              if r.Host = "" then { r with Host := b.Host } else r
            | none => r
          if r.Host = "" then none
          else some { r with Fragment := "" }

/-- core NormalizeURL ((string, bool) return as Option). -/
def NormalizeURL (base : Option GoURL) (candidate : String) : Option String :=
  match parseResolve base candidate with
  | none => none
  | some r =>
    match cleanPath r.Path with
    | none => none
    | some cleanedPath =>
      let r := { r with Path := cleanedPath }
      if hasRecursiveQuery r then none
      else if shouldExclude r then none
      else some (urlString r)

/-! ## Derived notions used in the claim statements -/

/-- The effective port of a parsed URL under the default-port stripping of
registry.normalizeHost. -/
def effPort (u : GoURL) : String :=
  let p := portOf u.Host
  if (u.Scheme = "http" ∧ p = "80") ∨ (u.Scheme = "https" ∧ p = "443") then ""
  else p

/-- The effective port as canonicalRequestKey sees it (scheme has been
lower-cased before normalizeHost runs). -/
def effPortKey (u : GoURL) : String :=
  effPort { u with Scheme := goToLower u.Scheme }

/-- Two raw query strings are equivalent for the canonical key: equal, or
both parse and agree on the key set and on the value set of every key
(order and multiplicity of repeats are free). -/
def queryEquiv (q qq : String) : Prop :=
  q = qq ∨
    ∃ l ll, goParseQuery q = some l ∧ goParseQuery qq = some ll ∧
      (l.map Prod.fst).toFinset = (ll.map Prod.fst).toFinset ∧
      ∀ k, (lookupVals l k).toFinset = (lookupVals ll k).toFinset

/-- A run of three consecutive identical segments (stated on the
lower-cased list). -/
def hasTripleRun (l : List String) : Prop :=
  ∃ pre a t, l = pre ++ [a, a, a] ++ t

/-- A cycle of length 2 to 4 repeated three times consecutively (stated on
the lower-cased list). -/
def hasCycleRepeat (l : List String) : Prop :=
  ∃ L pre blk t, 2 ≤ L ∧ L ≤ 4 ∧ blk.length = L ∧
    l = pre ++ blk ++ blk ++ blk ++ t

/-- The spec's loop conditions on a cleaned segment list, with the
segment-count threshold the code actually enforces (more than 128). -/
def declLoopy (segs : List String) : Prop :=
  128 < segs.length ∨ hasTripleRun (segs.map goToLower) ∨
    hasCycleRepeat (segs.map goToLower)

mutual

/-- Documents that agree on structure, tags and attributes, and on the
whitespace-only-ness of every text node (script/style content included,
since ancestor text checks see it). -/
def simEq : HNode → HNode → Prop
  | .elem t a cs, .elem tt aa cc => t = tt ∧ a = aa ∧ simEqList cs cc
  | .text s, .text ss => (goTrimSpace s = "" ↔ goTrimSpace ss = "")
  | .elem _ _ _, .text _ => False
  | .text _, .elem _ _ _ => False

/-- Pointwise simEq on child lists. -/
def simEqList : List HNode → List HNode → Prop
  | [], [] => True
  | n :: rest, nn :: rrest => simEq n nn ∧ simEqList rest rrest
  | [], _ :: _ => False
  | _ :: _, [] => False

end

/-! ## Concrete fixtures for the end-to-end scenarios -/

/-- The 128 pairwise distinct path segments x0 ... x127. -/
def segs128 : List String := (List.range 128).map (fun i => "x" ++ Nat.repr i)

/-- A cleaned path of exactly 128 distinct segments. -/
def path128 : String := "/" ++ String.intercalate "/" segs128

/-- A URL whose cleaned path has exactly 128 segments. -/
def cand128 : String := "http://t" ++ path128

/-- The S3 login form:
form action=/login method=POST with inputs user and pass (password). -/
def loginForm : HNode :=
  .elem "form" [("action", "/login"), ("method", "POST")]
    [.elem "input" [("name", "user")] [],
     .elem "input" [("name", "pass"), ("type", "password")] []]

/-- Document with an empty script element. -/
def domDocA : HNode :=
  .elem "html" [] [.elem "head" [] [.elem "script" [] []],
    .elem "body" [] []]

/-- The same document with script content added (differs only inside the
script element). -/
def domDocB : HNode :=
  .elem "html" [] [.elem "head" [] [.elem "script" [] [.text "var x=1;"]],
    .elem "body" [] []]

/-- domDocB with different but still non-blank script content. -/
def domDocC : HNode :=
  .elem "html" [] [.elem "head" [] [.elem "script" [] [.text "var y=2;"]],
    .elem "body" [] []]

/-- A concrete multipart request for the C9 scenario. -/
def c9req : JSRequest := { Method := "POST", RawURL := "u", Body := "--B--" }

/-- The single mutation fuzzMultipartBody produces for c9req. -/
def c9mut : ReflectionMutation :=
  { Request :=
      { Method := "POST", RawURL := "u",
        Body := "\r\n--B\\r\\nContent-Disposition: form-data; name=\"gospider_ref\"\\r\\n\\r\\nPAY\r\n--B--",
        ContentType := "multipart/form-data; boundary=B" },
    Param := "gospider_ref", Payload := "PAY" }

/-- A request with an upper-case Content-Type header key. -/
def c6reqA : JSRequest :=
  { Method := "POST", RawURL := "/a",
    Headers := [("Content-Type", "application/json")] }

/-- The same request with the header key lower-cased. -/
def c6reqB : JSRequest :=
  { Method := "POST", RawURL := "/a",
    Headers := [("content-type", "application/json")] }

/-- A request with two headers in one insertion order. -/
def c6reqC : JSRequest :=
  { Method := "GET", RawURL := "/b", Headers := [("a", "1"), ("b", "2")] }

/-- The same request with the opposite insertion order. -/
def c6reqD : JSRequest :=
  { Method := "GET", RawURL := "/b", Headers := [("b", "2"), ("a", "1")] }

/-- The canonical urlencoded POST synthesised for loginForm. -/
def c8r1 : JSRequest :=
  { Method := "POST", RawURL := "https://t/login",
    Body := "pass=G0sp%21der&user=gospider",
    ContentType := "application/x-www-form-urlencoded",
    Events := ["input", "change", "paste"] }

/-- The JSON variant synthesised for loginForm. -/
def c8r2 : JSRequest :=
  { Method := "POST", RawURL := "https://t/login",
    Body := "\x7b\"pass\":\"G0sp!der\",\"user\":\"gospider\"\x7d",
    ContentType := "application/json",
    Events := ["input", "change", "paste"] }

/-- The multipart variant synthesised for loginForm. -/
def c8r3 (nanos : Nat) : JSRequest :=
  { Method := "POST", RawURL := "https://t/login",
    Body := (buildMultipartFormBody (extractFormFields loginForm) nanos).1,
    ContentType := "multipart/form-data; boundary=" ++
      ("gospider-" ++ Nat.repr nanos),
    Events := ["input", "change", "paste"] }

/-- The fuzz-marker variant synthesised for loginForm. -/
def c8r4 : JSRequest :=
  { Method := "POST", RawURL := "https://t/login",
    Body := "pass=FUZZ_pass&user=FUZZ_user",
    ContentType := "application/x-www-form-urlencoded",
    Events := ["input", "change", "paste"] }

/-- The empty-body variant synthesised for loginForm. -/
def c8r5 : JSRequest :=
  { Method := "POST", RawURL := "https://t/login", Body := "",
    ContentType := "application/x-www-form-urlencoded",
    Events := ["input", "change", "paste"] }

/-- The base request buildFormRequest returns for loginForm. -/
def c8req0 : JSRequest :=
  { Method := "POST", RawURL := "https://t/login",
    Body := "pass=G0sp%21der&user=gospider",
    ContentType := "application/x-www-form-urlencoded" }

/-! # Theorems -/

/-! ## Shared helper lemmas -/

theorem evaluateEntry_emitted (e : ReflectionEntry) (h : e.emitted = true) :
    evaluateEntry e = (none, e) := by
  simp [evaluateEntry, h]

theorem reflStep_emitted (e : ReflectionEntry) (o : ReflObs)
    (h : e.emitted = true) :
    (reflStep e o).1 = none ∧ (reflStep e o).2.emitted = true := by
  cases o with
  | baseline ob =>
    simp only [reflStep, applyBaseline]
    split_ifs <;> simp [evaluateEntry, h]
  | mutated om =>
    simp only [reflStep, applyMutated]
    split_ifs <;> simp [evaluateEntry, h]

theorem reflRun_emitted (e : ReflectionEntry) (obs : List ReflObs)
    (h : e.emitted = true) : (reflRun e obs).2 = [] := by
  induction obs generalizing e with
  | nil => rfl
  | cons o rest ih =>
    obtain ⟨h1, h2⟩ := reflStep_emitted e o h
    have hstep : reflStep e o = (none, (reflStep e o).2) := by
      rw [← h1]
    simp only [reflRun]
    rw [hstep]
    simpa using ih _ h2

/-! ## C3: a reflection finding is emitted at most once per entry -/

/-- C3: reflectionEntry.evaluate returns a finding only when the baseline
and mutated slots are both populated and the entry is not yet emitted;
once emitted is set, every later evaluate call (through any sequence of
baseline/mutated handler updates) returns nil. -/
theorem claim_c3_reflection_emit_once :
    (∀ (e : ReflectionEntry) (f : ReflectionFinding) (ee : ReflectionEntry),
        evaluateEntry e = (some f, ee) →
        e.baselineSet = true ∧ e.mutatedSet = true ∧ e.emitted = false) ∧
    (∀ e : ReflectionEntry, e.emitted = true → evaluateEntry e = (none, e)) ∧
    (∀ (e : ReflectionEntry) (obs : List ReflObs), e.emitted = true →
        (reflRun e obs).2 = []) := by
  refine ⟨?_, evaluateEntry_emitted, reflRun_emitted⟩
  intro e f ee h
  by_cases hb : (e.baselineSet = false ∨ e.mutatedSet = false ∨ e.emitted = true)
  · simp [evaluateEntry, hb] at h
  · simp only [not_or, Bool.not_eq_false, Bool.not_eq_true] at hb
    exact hb

/-- C3 witness: the guard conditions evaluated at concrete entries. -/
theorem claim_c3_witness :
    ({ baselineSet := true, mutatedSet := true, mutatedContains := true :
        ReflectionEntry }).emitted = false ∧
    evaluateEntry { emitted := true } = (none, { emitted := true }) ∧
    (reflRun { emitted := true }
      [ReflObs.baseline {}, ReflObs.mutated {}]).2 = [] := by
  refine ⟨?_, claim_c3_reflection_emit_once.2.1 { emitted := true } rfl,
    claim_c3_reflection_emit_once.2.2 { emitted := true } _ rfl⟩
  exact (claim_c3_reflection_emit_once.1
    { baselineSet := true, mutatedSet := true, mutatedContains := true }
    { URL := "", Method := "", Origin := "", Status := 0, Length := 0,
      Param := "", Payload := "", Reasons := ["payload-reflected"] }
    { baselineSet := true, mutatedSet := true, mutatedContains := true,
      emitted := true } rfl).2.2

/-! ## More string helpers -/

theorem listIsPre_append {α : Type} [DecidableEq α] (l r : List α) :
    listIsPre l (l ++ r) = true := by
  induction l with
  | nil => rfl
  | cons a t ih => simp [listIsPre, ih]

theorem listIsPre_extend {α : Type} [DecidableEq α] (pat l r : List α)
    (h : listIsPre pat l = true) : listIsPre pat (l ++ r) = true := by
  induction pat generalizing l with
  | nil => rfl
  | cons a t ih =>
    cases l with
    | nil => simp [listIsPre] at h
    | cons b bs =>
      simp only [listIsPre, List.cons_append, Bool.and_eq_true, decide_eq_true_eq] at h ⊢
      exact ⟨h.1, ih bs h.2⟩

theorem strHasPre_append (a x : String) : strHasPre (a ++ x) a = true := by
  simp only [strHasPre, String.toList, String.data_append]
  exact listIsPre_append _ _

theorem strHasPre_extend (s t a : String) (h : strHasPre s a = true) :
    strHasPre (s ++ t) a = true := by
  simp only [strHasPre, String.toList, String.data_append] at h ⊢
  exact listIsPre_extend _ _ _ h

theorem canonicalRequestKey_ne_empty (m u b : String) (hu : u ≠ "") :
    canonicalRequestKey m u b ≠ "" := by
  have hsp : (" " : String).length = 1 := rfl
  have hbd : (" body:" : String).length = 6 := rfl
  have hem : ("" : String).length = 0 := rfl
  unfold canonicalRequestKey
  rw [if_neg hu]
  cases hp : parseURL u with
  | none =>
    intro h
    have h2 := congrArg String.length h
    simp only [String.length_append, hsp, hbd, hem] at h2
    omega
  | some p =>
    simp only
    split_ifs <;>
      (intro h; have h2 := congrArg String.length h;
       simp only [String.length_append, hsp, hbd, hem] at h2; omega)

/-! ## C5: MarkResponse on blank bodies (corrected) -/

/-- C5 counterexample: the second MarkResponse call with an empty body on
the same canonical key returns true, not false (the empty hash is stored
and compared equal). -/
theorem claim_c5_counterexample :
    (MarkResponse (MarkResponse {} "GET" "http://t/" "").2
      "GET" "http://t/" "").1 = true := by
  decide

/-- C5 amended: a MarkResponse call with a blank body returns false
unless the previously recorded hash for the same canonical key is itself
the empty hash, in which case it returns true. -/
theorem claim_c5_mark_response_blank :
    ∀ (r : URLRegistry) (m u body : String), goTrimSpace body = "" →
      ((MarkResponse r m u body).1 = true ↔
        (u ≠ "" ∧ r.respHashes.lookup (canonicalRequestKey m u "") = some "")) := by
  intro r m u body hbody
  have hhash : hashContent body = "" := by
    unfold hashContent hashContentString
    rw [hbody]
    simp
  by_cases hu : u = ""
  · subst hu
    have hkey : canonicalRequestKey m "" "" = "" := by
      unfold canonicalRequestKey; simp
    simp [MarkResponse, hkey]
  · have hkey := canonicalRequestKey_ne_empty m u "" hu
    simp only [MarkResponse, if_neg hkey, hhash]
    cases hl : r.respHashes.lookup (canonicalRequestKey m u "") with
    | none => simp [hu]
    | some prev =>
      by_cases hprev : prev = ""
      · subst hprev; simp [hu]
      · simp [hprev, hu, Ne.symm hprev]

/-- C5 witness: the amended statement evaluated after one blank-body call. -/
theorem claim_c5_witness :
    ((MarkResponse (MarkResponse {} "GET" "http://t/" "").2
        "GET" "http://t/" "").1 = true ↔
      ("http://t/" ≠ "" ∧
        ((MarkResponse {} "GET" "http://t/" "").2).respHashes.lookup
          (canonicalRequestKey "GET" "http://t/" "") = some "")) :=
  claim_c5_mark_response_blank (MarkResponse {} "GET" "http://t/" "").2
    "GET" "http://t/" "" rfl

/-! ## C10: canonical keys for malformed URLs -/

/-- C10: for a non-empty raw URL the canonical key is non-empty and starts
with the normalised method; when URL parsing fails the key falls back to
method plus the trimmed raw URL, so malformed URLs still deduplicate. -/
theorem claim_c10_canonical_key_fallback :
    ∀ m u b : String, u ≠ "" →
      canonicalRequestKey m u b ≠ "" ∧
      strHasPre (canonicalRequestKey m u b) (canonicalMethod m ++ " ") = true ∧
      (parseURL u = none →
        canonicalRequestKey m u b = canonicalMethod m ++ " " ++ goTrimSpace u) := by
  intro m u b hu
  refine ⟨canonicalRequestKey_ne_empty m u b hu, ?_, ?_⟩
  · unfold canonicalRequestKey
    rw [if_neg hu]
    cases hp : parseURL u with
    | none => exact strHasPre_append _ _
    | some p =>
      simp only
      split_ifs <;>
        first
          | exact strHasPre_append _ _
          | exact strHasPre_extend _ _ _
              (strHasPre_extend _ _ _ (strHasPre_append _ _))
  · intro hp
    unfold canonicalRequestKey
    rw [if_neg hu, hp]

/-- C10 witness: a concrete unparsable URL (bad percent escape) falls back
to the method-prefixed trimmed raw URL. -/
theorem claim_c10_witness :
    canonicalRequestKey "get" "http://t/%zz" "" ≠ "" ∧
    canonicalRequestKey "get" "http://t/%zz" "" =
      canonicalMethod "get" ++ " " ++ goTrimSpace "http://t/%zz" :=
  ⟨(claim_c10_canonical_key_fallback "get" "http://t/%zz" "" (by decide)).1,
   (claim_c10_canonical_key_fallback "get" "http://t/%zz" "" (by decide)).2.2 rfl⟩

/-! ## C2: registry idempotence and monotone key set -/

theorem filterDuplicate_mem_mono (f : StringFilter) (s k : String)
    (h : k ∈ f.members) : k ∈ (filterDuplicate f s).2.members := by
  unfold filterDuplicate
  dsimp only
  split_ifs <;> simp [h]

theorem regStep_members_mono (r : URLRegistry) (op : RegOp) (k : String)
    (h : k ∈ r.filter.members) : k ∈ (regStep r op).filter.members := by
  cases op with
  | dupReq m u b =>
    simp only [regStep, DuplicateRequest]
    split_ifs with h1
    · exact h
    · exact filterDuplicate_mem_mono _ _ _ h
  | markResp m u b =>
    simp only [regStep, MarkResponse]
    split_ifs with h1
    · exact h
    · cases hl : r.respHashes.lookup (canonicalRequestKey m u "") with
      | none => simp [hl, h]
      | some prev =>
        simp only [hl]
        split_ifs <;> simp [h]
  | dup raw =>
    simp only [regStep, Duplicate, DuplicateRequest]
    split_ifs with h1
    · exact h
    · exact filterDuplicate_mem_mono _ _ _ h

theorem regRun_members_mono (r : URLRegistry) (ops : List RegOp) (k : String)
    (h : k ∈ r.filter.members) : k ∈ (regRun r ops).filter.members := by
  induction ops generalizing r with
  | nil => exact h
  | cons op rest ih => exact ih _ (regStep_members_mono r op k h)

theorem duplicateRequest_true_iff (r : URLRegistry) (m u b : String) :
    (DuplicateRequest r m u b).1 = true ↔
      (canonicalRequestKey m u b ≠ "" ∧
        goToLower (canonicalRequestKey m u b) ∈ r.filter.members) := by
  unfold DuplicateRequest filterDuplicate
  dsimp only
  split_ifs with h1 h2 <;> simp_all [List.elem_iff]

theorem duplicateRequest_inserts (r : URLRegistry) (m u b : String)
    (h : canonicalRequestKey m u b ≠ "") :
    goToLower (canonicalRequestKey m u b) ∈
      (DuplicateRequest r m u b).2.filter.members := by
  unfold DuplicateRequest filterDuplicate
  dsimp only
  split_ifs with h1 h2 <;> simp_all [List.elem_iff]

/-- C2: once DuplicateRequest has returned true, every later call whose
arguments map to the same canonical key returns true across any sequence
of registry operations, and the set of present keys only grows. -/
theorem claim_c2_duplicate_request_idempotent :
    (∀ (r : URLRegistry) (ops : List RegOp) (m u b mm uu bb : String),
        canonicalRequestKey m u b = canonicalRequestKey mm uu bb →
        (DuplicateRequest r m u b).1 = true →
        (DuplicateRequest (regRun (DuplicateRequest r m u b).2 ops)
          mm uu bb).1 = true) ∧
    (∀ (r : URLRegistry) (ops : List RegOp) (k : String),
        k ∈ r.filter.members → k ∈ (regRun r ops).filter.members) := by
  refine ⟨?_, regRun_members_mono⟩
  intro r ops m u b mm uu bb hkey htrue
  obtain ⟨hne, _⟩ := (duplicateRequest_true_iff r m u b).mp htrue
  have hmem := duplicateRequest_inserts r m u b hne
  have hmem2 := regRun_members_mono _ ops _ hmem
  rw [duplicateRequest_true_iff, ← hkey]
  exact ⟨hne, hmem2⟩

/-- C2 witness: a concrete duplicate stays a duplicate across later
operations. -/
theorem claim_c2_witness :
    (DuplicateRequest
      (regRun (DuplicateRequest
        (DuplicateRequest {} "GET" "http://t/a" "").2
        "GET" "http://t/a" "").2 [RegOp.dup "http://t/b"])
      "get" "http://t/a#x" "").1 = true :=
  claim_c2_duplicate_request_idempotent.1
    (DuplicateRequest {} "GET" "http://t/a" "").2 [RegOp.dup "http://t/b"]
    "GET" "http://t/a" "" "get" "http://t/a#x" "" (by decide) (by decide)

/-! ## C9: the injected multipart part is framed with escaped CRLF -/

theorem append_head_swap :
    ∀ X : String,
      X ++ "\\r\\nContent-Disposition: form-data; name=\"" ++
        reflectedParamName ++ "\"\\r\\n\\r\\n" =
      X ++ "\\r\\nContent-Disposition: form-data; name=\"gospider_ref\"\\r\\n\\r\\n" := by
  intro X
  rw [String.append_assoc, String.append_assoc]
  exact congrArg (X ++ ·) rfl

set_option maxHeartbeats 1000000 in
/-- C9: every mutation fuzzMultipartBody emits writes the separators
around the injected gospider_ref part header as the two-character literal
sequences backslash-r backslash-n; the injected header segment contains no
raw CR LF bytes at all. -/
theorem claim_c9_multipart_escaped_crlf :
    ∀ (req : JSRequest) (ct : String) (payloads : List String)
      (mz : ReflectionMutation), mz ∈ fuzzMultipartBody req ct payloads →
      ∃ mediaType params payload,
        parseMediaType ct = some (mediaType, params) ∧
        (let boundary := (params.lookup "boundary").getD ""
         let body0 := trimSuffixStr req.Body ("--" ++ boundary ++ "--")
         let body1 := if ¬ strHasSuffix body0 "\r\n" then body0 ++ "\r\n"
           else body0
         boundary ≠ "" ∧
         payloads.head? = some payload ∧
         mz.Request.Body =
           body1 ++ "--" ++ boundary ++
             "\\r\\nContent-Disposition: form-data; name=\"gospider_ref\"\\r\\n\\r\\n" ++
             payload ++ "\r\n--" ++ boundary ++ "--") ∧
        ("\\r\\nContent-Disposition: form-data; name=\"gospider_ref\"\\r\\n\\r\\n").toList.take 4 =
          ['\\', 'r', '\\', 'n'] ∧
        strContains
          "\\r\\nContent-Disposition: form-data; name=\"gospider_ref\"\\r\\n\\r\\n"
          "\r\n" = false := by
  intro req ct payloads mz h
  unfold fuzzMultipartBody at h
  cases hp : parseMediaType ct with
  | none => rw [hp] at h; simp at h
  | some mp =>
    obtain ⟨mediaType, params⟩ := mp
    rw [hp] at h
    dsimp only at h
    by_cases h1 : strContains mediaType "multipart/form-data" = true
    · rw [if_neg (by simpa using h1)] at h
      by_cases h2 : (params.lookup "boundary").getD "" = ""
      · rw [if_pos h2] at h; simp at h
      · rw [if_neg h2] at h
        cases hh : payloads.head? with
        | none => rw [hh] at h; simp at h
        | some payload =>
          rw [hh] at h
          simp only [List.mem_singleton] at h
          subst h
          refine ⟨mediaType, params, payload, rfl, ⟨h2, rfl, ?_⟩,
            by decide, by decide⟩
          dsimp only
          split_ifs <;> rw [append_head_swap]
    · rw [if_pos (by simpa using h1)] at h
      simp at h

/-- C9 witness: the concrete mutation of a multipart request, with the
escaped-CRLF framing evaluated. -/
theorem claim_c9_witness :
    ∃ mediaType params payload,
      parseMediaType "multipart/form-data; boundary=B" =
        some (mediaType, params) ∧
      (let boundary := (params.lookup "boundary").getD ""
       let body0 := trimSuffixStr c9req.Body ("--" ++ boundary ++ "--")
       let body1 := if ¬ strHasSuffix body0 "\r\n" then body0 ++ "\r\n"
         else body0
       boundary ≠ "" ∧
       (["PAY"] : List String).head? = some payload ∧
       c9mut.Request.Body =
         body1 ++ "--" ++ boundary ++
           "\\r\\nContent-Disposition: form-data; name=\"gospider_ref\"\\r\\n\\r\\n" ++
           payload ++ "\r\n--" ++ boundary ++ "--") ∧
      ("\\r\\nContent-Disposition: form-data; name=\"gospider_ref\"\\r\\n\\r\\n").toList.take 4 =
        ['\\', 'r', '\\', 'n'] ∧
      strContains
        "\\r\\nContent-Disposition: form-data; name=\"gospider_ref\"\\r\\n\\r\\n"
        "\r\n" = false :=
  claim_c9_multipart_escaped_crlf c9req "multipart/form-data; boundary=B"
    ["PAY"] c9mut (by decide)

/-! ## Sorting machinery for the canonicalisation proofs -/

theorem listLe_total (a b : List Char) : listLe a b = true ∨ listLe b a = true := by
  induction a generalizing b with
  | nil => left; rfl
  | cons x xs ih =>
    cases b with
    | nil => right; rfl
    | cons y ys =>
      by_cases hxy : x = y
      · subst hxy
        simpa [listLe] using ih ys
      · rcases lt_trichotomy x y with h | h | h
        · left; simp [listLe, hxy, h]
        · exact absurd h hxy
        · right
          simp [listLe, Ne.symm hxy, h]

theorem listLe_antisymm (a b : List Char) (h1 : listLe a b = true)
    (h2 : listLe b a = true) : a = b := by
  induction a generalizing b with
  | nil =>
    cases b with
    | nil => rfl
    | cons y ys => simp [listLe] at h2
  | cons x xs ih =>
    cases b with
    | nil => simp [listLe] at h1
    | cons y ys =>
      by_cases hxy : x = y
      · subst hxy
        simp only [listLe, if_pos rfl] at h1 h2
        rw [ih ys h1 h2]
      · simp only [listLe, if_neg hxy, if_neg (Ne.symm hxy),
          decide_eq_true_eq] at h1 h2
        exact absurd h2 (not_lt_of_lt h1)

theorem listLe_trans (a b c : List Char) (h1 : listLe a b = true)
    (h2 : listLe b c = true) : listLe a c = true := by
  induction a generalizing b c with
  | nil => rfl
  | cons x xs ih =>
    cases b with
    | nil => simp [listLe] at h1
    | cons y ys =>
      cases c with
      | nil => simp [listLe] at h2
      | cons z zs =>
        by_cases hxy : x = y <;> by_cases hyz : y = z
        · subst hxy; subst hyz
          simp only [listLe, if_pos rfl] at h1 h2 ⊢
          exact ih ys zs h1 h2
        · subst hxy
          simp only [listLe, if_neg hyz, decide_eq_true_eq] at h2
          simp [listLe, hyz, h2]
        · subst hyz
          simp only [listLe, if_neg hxy, decide_eq_true_eq] at h1
          simp [listLe, hxy, h1]
        · simp only [listLe, if_neg hxy, if_neg hyz, decide_eq_true_eq] at h1 h2
          have hxz := lt_trans h1 h2
          simp [listLe, ne_of_lt hxz, hxz]

/-- The sorting relation of sortStrings. -/
def strR (a b : String) : Prop := strLeB a b = true

theorem strR_total (a b : String) : strR a b ∨ strR b a :=
  listLe_total a.toList b.toList

theorem strR_antisymm (a b : String) (h1 : strR a b) (h2 : strR b a) : a = b :=
  String.ext (listLe_antisymm _ _ h1 h2)

theorem strR_trans (a b c : String) (h1 : strR a b) (h2 : strR b c) :
    strR a c :=
  listLe_trans _ _ _ h1 h2

theorem insertSorted_perm (x : String) (l : List String) :
    (insertSorted x l).Perm (x :: l) := by
  induction l with
  | nil => exact List.Perm.refl _
  | cons y ys ih =>
    by_cases h : strLeB x y
    · simp [insertSorted, h]
    · simp only [insertSorted, if_neg h]
      exact (ih.cons y).trans (List.Perm.swap x y ys)

theorem insertSorted_sorted (x : String) (l : List String)
    (h : List.Sorted strR l) : List.Sorted strR (insertSorted x l) := by
  induction l with
  | nil => simp [insertSorted, List.Sorted]
  | cons y ys ih =>
    rw [List.sorted_cons] at h
    by_cases hxy : strLeB x y
    · rw [insertSorted, if_pos hxy, List.sorted_cons]
      refine ⟨?_, List.sorted_cons.mpr h⟩
      intro b hb
      rcases List.mem_cons.mp hb with hb | hb
      · subst hb; exact hxy
      · exact strR_trans x y b hxy (h.1 b hb)
    · rw [insertSorted, if_neg hxy, List.sorted_cons]
      refine ⟨?_, ih h.2⟩
      intro b hb
      have hyx : strR y x := by
        rcases strR_total x y with hh | hh
        · exact absurd hh hxy
        · exact hh
      have hb2 := (insertSorted_perm x ys).mem_iff.mp hb
      rcases List.mem_cons.mp hb2 with hb3 | hb3
      · subst hb3; exact hyx
      · exact h.1 b hb3

theorem sortStrings_perm (l : List String) : (sortStrings l).Perm l := by
  induction l with
  | nil => exact List.Perm.refl _
  | cons x xs ih =>
    exact (insertSorted_perm x (sortStrings xs)).trans (ih.cons x)

theorem sortStrings_sorted (l : List String) :
    List.Sorted strR (sortStrings l) := by
  induction l with
  | nil => simp [sortStrings, List.Sorted]
  | cons x xs ih => exact insertSorted_sorted x _ ih

theorem sorted_strR_unique (l l2 : List String) (h : l.Perm l2)
    (h1 : List.Sorted strR l) (h2 : List.Sorted strR l2) : l = l2 :=
  haveI : IsAntisymm String strR := ⟨strR_antisymm⟩
  List.eq_of_perm_of_sorted h h1 h2

theorem sortStrings_eq_of_perm (l l2 : List String) (h : l.Perm l2) :
    sortStrings l = sortStrings l2 :=
  sorted_strR_unique _ _
    ((sortStrings_perm l).trans (h.trans (sortStrings_perm l2).symm))
    (sortStrings_sorted l) (sortStrings_sorted l2)

/-! ## C6: buildRequestKey invariances (corrected) -/

theorem lookup_perm_of_nodup {β : Type} (l l2 : List (String × β))
    (h : l.Perm l2) (hn : (l.map Prod.fst).Nodup) (k : String) :
    l.lookup k = l2.lookup k := by
  induction h with
  | nil => rfl
  | cons x p ih =>
    obtain ⟨x1, x2⟩ := x
    simp only [List.lookup]
    cases hkx : k == x1 with
    | true => rfl
    | false =>
      refine ih ?_
      rw [List.map_cons] at hn
      exact hn.of_cons
  | swap x y l =>
    obtain ⟨x1, x2⟩ := x
    obtain ⟨y1, y2⟩ := y
    have hneq : y1 ≠ x1 := by
      simp only [List.map_cons, List.nodup_cons, List.mem_cons] at hn
      exact fun hcontra => hn.1 (Or.inl hcontra)
    simp only [List.lookup]
    cases hky : k == y1 with
    | true =>
      have hk : k = y1 := by simpa using hky
      have hkx : (k == x1) = false := by
        rw [hk]
        simpa using hneq
      simp [hky, hkx]
    | false =>
      cases hkx : k == x1 with
      | true => simp [hky, hkx]
      | false => simp [hky, hkx]
  | trans p1 p2 ih1 ih2 =>
    have hn2 : ((_ : List (String × β)).map Prod.fst).Nodup :=
      ((p1.map Prod.fst).nodup_iff).mp hn
    exact (ih1 hn).trans (ih2 hn2)

set_option linter.unusedVariables false in
/-- C6 counterexample: two synthetic requests whose header maps differ
only in the letter-case of the header key produce different keys (the
value is fetched with the lower-cased key and comes back empty). -/
theorem claim_c6_counterexample :
    buildRequestKey c6reqA ≠ buildRequestKey c6reqB := by
  decide

/-- C6 amended: buildRequestKey is deterministic and invariant under
header insertion order (for map-like header lists, whose keys are
distinct); invariance under header-key letter-case fails because the
value lookup uses the lower-cased key. -/
theorem claim_c6_request_key_order_invariant :
    ∀ r q : JSRequest,
      r.Method = q.Method → r.RawURL = q.RawURL → r.Body = q.Body →
      r.ContentType = q.ContentType → r.Headers.Perm q.Headers →
      (r.Headers.map Prod.fst).Nodup →
      buildRequestKey r = buildRequestKey q := by
  intro r q hM hU hB hCT hperm hnd
  have hkeys : sortStrings (r.Headers.map (fun p => goToLower p.1)) =
      sortStrings (q.Headers.map (fun p => goToLower p.1)) :=
    sortStrings_eq_of_perm _ _ (hperm.map _)
  have hlook : ∀ k, r.Headers.lookup k = q.Headers.lookup k :=
    fun k => lookup_perm_of_nodup _ _ hperm hnd k
  by_cases hre : r.Headers = []
  · have hqe : q.Headers = [] := by
      have := hperm.length_eq
      rw [hre] at this
      exact List.length_eq_zero.mp this.symm
    simp [buildRequestKey, hre, hqe, hM, hU, hB, hCT]
  · have hqe : q.Headers ≠ [] := by
      intro hq
      rw [hq] at hperm
      exact hre (List.length_eq_zero.mp hperm.length_eq)
    have hfun : (fun (acc : String) (k : String) =>
        acc ++ " " ++ k ++ "=" ++ ((r.Headers.lookup k).getD "")) =
        (fun acc k => acc ++ " " ++ k ++ "=" ++ ((q.Headers.lookup k).getD "")) := by
      funext acc k
      rw [hlook]
    simp only [buildRequestKey, hM, hU, hB, hCT, hkeys, hfun]
    simp [hre, hqe]

/-- C6 witness: a concrete pair with permuted header insertion order gets
byte-equal keys. -/
theorem claim_c6_witness : buildRequestKey c6reqC = buildRequestKey c6reqD :=
  claim_c6_request_key_order_invariant c6reqC c6reqD rfl rfl rfl rfl
    (by decide) (by decide)

/-! ## C8: form request synthesis for the S3 login form -/

theorem mpb_ne_of_fields (fields : List FormField) (nanos : Nat)
    (h : fields ≠ []) : (buildMultipartFormBody fields nanos).1 ≠ "" := by
  unfold buildMultipartFormBody
  rw [if_neg h]
  dsimp only
  intro hc
  have h2 := congrArg String.length hc
  have hdash : ("--" : String).length = 2 := rfl
  have hem : ("" : String).length = 0 := rfl
  simp only [String.length_append, hdash, hem] at h2
  omega

theorem c8_list_eq (nanos : Nat) :
    ExtractFormRequests loginForm (parseURL "https://t/") nanos =
      [c8r1, c8r2, c8r3 nanos, c8r4, c8r5] := by
  have hne := mpb_ne_of_fields (extractFormFields loginForm) nanos (by decide)
  have hmp : buildMultipartFormBody (extractFormFields loginForm) nanos =
      ((buildMultipartFormBody (extractFormFields loginForm) nanos).1,
        "gospider-" ++ Nat.repr nanos) := by
    refine Prod.ext rfl ?_
    rfl
  have hb : buildFormRequest (attrOr loginForm "action" "")
      (attrOr loginForm "method" "GET") (extractFormFields loginForm)
      (parseURL "https://t/") = some c8req0 := by decide
  unfold ExtractFormRequests
  dsimp only
  rw [hmp]
  dsimp only
  rw [hb]
  dsimp only
  rw [if_pos hne]
  rfl

set_option maxHeartbeats 1000000 in
/-- C8: the login form with base https://t/ synthesises at least five
requests: urlencoded POST, JSON POST, multipart POST with boundary
gospider-nanos, a fuzz variant containing user=FUZZ_user, and an
empty-body POST; the default values gospider and G0sp!der appear. -/
theorem claim_c8_form_synthesis :
    ∀ nanos : Nat,
      5 ≤ (ExtractFormRequests loginForm (parseURL "https://t/") nanos).length ∧
      (∃ r ∈ ExtractFormRequests loginForm (parseURL "https://t/") nanos,
        r.Method = "POST" ∧
          r.ContentType = "application/x-www-form-urlencoded") ∧
      (∃ r ∈ ExtractFormRequests loginForm (parseURL "https://t/") nanos,
        r.Method = "POST" ∧ r.ContentType = "application/json") ∧
      (∃ r ∈ ExtractFormRequests loginForm (parseURL "https://t/") nanos,
        r.Method = "POST" ∧
          r.ContentType =
            "multipart/form-data; boundary=gospider-" ++ Nat.repr nanos) ∧
      (∃ r ∈ ExtractFormRequests loginForm (parseURL "https://t/") nanos,
        strContains r.Body "user=FUZZ_user" = true) ∧
      (∃ r ∈ ExtractFormRequests loginForm (parseURL "https://t/") nanos,
        r.Method = "POST" ∧ r.Body = "") ∧
      (∃ r ∈ ExtractFormRequests loginForm (parseURL "https://t/") nanos,
        strContains r.Body "gospider" = true) ∧
      (∃ r ∈ ExtractFormRequests loginForm (parseURL "https://t/") nanos,
        strContains r.Body "G0sp!der" = true) := by
  intro nanos
  rw [c8_list_eq nanos]
  refine ⟨by simp, ⟨c8r1, by simp, rfl, rfl⟩, ⟨c8r2, by simp, rfl, rfl⟩,
    ⟨c8r3 nanos, by simp, rfl, ?_⟩, ⟨c8r4, by simp, by decide⟩,
    ⟨c8r5, by simp, rfl, rfl⟩, ⟨c8r1, by simp, by decide⟩,
    ⟨c8r2, by simp, by decide⟩⟩
  show "multipart/form-data; boundary=" ++ ("gospider-" ++ Nat.repr nanos) =
    "multipart/form-data; boundary=gospider-" ++ Nat.repr nanos
  rw [← String.append_assoc]
  exact congrArg (· ++ Nat.repr nanos) rfl

/-! ## C7: DOM SimHash invariances (corrected) -/

/-- C7 counterexample: two documents that differ only in the contents of
a script element (empty vs var x=1;) get different SimHash signatures,
because goquery Text() includes descendant script text in every
ancestor's text-presence feature. -/
theorem claim_c7_counterexample :
    ComputeDOMSignature [domDocA] ≠ ComputeDOMSignature [domDocB] := by
  decide

theorem all_ws_append (a b : String) :
    ((a ++ b).toList.all goIsSpace) =
      (a.toList.all goIsSpace && b.toList.all goIsSpace) := by
  simp [String.toList, String.data_append, List.all_append]

theorem trim_empty_iff (s : String) :
    goTrimSpace s = "" ↔ s.toList.all goIsSpace = true := by
  unfold goTrimSpace
  constructor
  · intro h
    have hl : (((s.toList.dropWhile goIsSpace).reverse.dropWhile
        goIsSpace).reverse) = [] := by
      have := congrArg String.data h
      simpa using this
    rw [List.reverse_eq_nil_iff, List.dropWhile_eq_nil_iff] at hl
    rw [List.all_eq_true]
    intro x hx
    rcases List.mem_append.mp
      ((List.takeWhile_append_dropWhile goIsSpace s.toList) ▸ hx) with h1 | h1
    · exact List.mem_takeWhile_imp h1
    · exact hl x (List.mem_reverse.mpr h1)
  · intro h
    have h1 : s.toList.dropWhile goIsSpace = [] := by
      rw [List.dropWhile_eq_nil_iff]
      intro x hx
      exact List.all_eq_true.mp h x hx
    rw [h1]
    rfl

mutual

theorem simEq_blank : ∀ n m : HNode, simEq n m →
    (textContent n).toList.all goIsSpace = (textContent m).toList.all goIsSpace
  | .elem t a cs, .elem t2 a2 cs2, h => by
    have h3 : simEqList cs cs2 := h.2.2
    simpa [textContent] using simEqList_blank cs cs2 h3
  | .text s, .text s2, h => by
    simp only [simEq] at h
    simp only [textContent]
    rw [Bool.eq_iff_iff]
    rw [← trim_empty_iff, ← trim_empty_iff]
    exact h
  | .elem _ _ _, .text _, h => absurd h (by simp [simEq])
  | .text _, .elem _ _ _, h => absurd h (by simp [simEq])

theorem simEqList_blank : ∀ cs cs2 : List HNode, simEqList cs cs2 →
    (textContentList cs).toList.all goIsSpace =
      (textContentList cs2).toList.all goIsSpace
  | [], [], _ => rfl
  | c :: cs, c2 :: cs2, h => by
    simp only [textContentList]
    rw [all_ws_append, all_ws_append, simEq_blank c c2 h.1,
      simEqList_blank cs cs2 h.2]
  | [], _ :: _, h => absurd h (by simp [simEqList])
  | _ :: _, [], h => absurd h (by simp [simEqList])

end

theorem featuresStep_congr (fs : List String) (n m : HNode) (h : simEq n m) :
    featuresStep fs n = featuresStep fs m := by
  cases n with
  | text s =>
    cases m with
    | text s2 => rfl
    | elem t a cs => exact absurd h (by simp [simEq])
  | elem t a cs =>
    cases m with
    | text s2 => exact absurd h (by simp [simEq])
    | elem t2 a2 cs2 =>
      obtain ⟨ht, ha, hcs⟩ := h
      subst ht; subst ha
      have hblank := simEq_blank (.elem t a cs) (.elem t a cs2) ⟨rfl, rfl, hcs⟩
      have hb : (goTrimSpace (textContent (.elem t a cs)) ≠ "") ↔
          (goTrimSpace (textContent (.elem t a cs2)) ≠ "") := by
        rw [not_iff_not, trim_empty_iff, trim_empty_iff, hblank]
      simp only [featuresStep]
      split_ifs <;> first | rfl | tauto

mutual

theorem elementsPre_rel : ∀ n m : HNode, simEq n m →
    List.Forall₂ simEq (elementsPre n) (elementsPre m)
  | .elem t a cs, .elem t2 a2 cs2, h => by
    obtain ⟨ht, ha, hcs⟩ := h
    subst ht; subst ha
    simp only [elementsPre]
    exact List.Forall₂.cons ⟨rfl, rfl, hcs⟩ (elementsPreList_rel cs cs2 hcs)
  | .text s, .text s2, _ => by simp [elementsPre]
  | .elem _ _ _, .text _, h => absurd h (by simp [simEq])
  | .text _, .elem _ _ _, h => absurd h (by simp [simEq])

theorem elementsPreList_rel : ∀ cs cs2 : List HNode, simEqList cs cs2 →
    List.Forall₂ simEq (elementsPreList cs) (elementsPreList cs2)
  | [], [], _ => by simp [elementsPreList]
  | c :: cs, c2 :: cs2, h => by
    simp only [elementsPreList]
    exact List.rel_append (elementsPre_rel c c2 h.1)
      (elementsPreList_rel cs cs2 h.2)
  | [], _ :: _, h => absurd h (by simp [simEqList])
  | _ :: _, [], h => absurd h (by simp [simEqList])

end

theorem collectLoop_congr : ∀ (els els2 : List HNode) (fs : List String),
    List.Forall₂ simEq els els2 →
    collectFeaturesLoop fs els = collectFeaturesLoop fs els2 := by
  intro els els2 fs h
  induction h generalizing fs with
  | nil => rfl
  | cons hrel hrest ih =>
    simp only [collectFeaturesLoop]
    rw [featuresStep_congr fs _ _ hrel]
    split_ifs
    · rfl
    · exact ih _

/-- C7 amended: the signature is invariant under text-node changes that
preserve whether each text node is entirely whitespace — this covers all
whitespace-only edits and script/style edits that keep the content
(non-)blank — but not under arbitrary script/style content changes. -/
theorem claim_c7_dom_signature_invariant :
    ∀ d d2 : List HNode, simEqList d d2 →
      ComputeDOMSignature d = ComputeDOMSignature d2 := by
  intro d d2 h
  unfold ComputeDOMSignature
  rw [collectLoop_congr _ _ [] (elementsPreList_rel d d2 h)]

/-- C7 witness: documents differing only in non-blank script content have
equal signatures. -/
theorem claim_c7_witness :
    ComputeDOMSignature [domDocB] = ComputeDOMSignature [domDocC] :=
  claim_c7_dom_signature_invariant [domDocB] [domDocC]
    (by simp [simEqList, simEq, domDocB, domDocC]; decide)

/-! ## C4: path-loop rejection (corrected) -/

theorem declLoopy_nil : ¬ declLoopy [] := by
  rintro (h | ⟨pre, a, t, h⟩ | ⟨L, pre, blk, t, h2, h4, hL, h⟩)
  · simp at h
  · have := congrArg List.length h
    simp [List.length_append] at this
    omega
  · have := congrArg List.length h
    simp [List.length_append] at this
    omega

theorem runScanAux_zero (a : String) (t : List String) (rep : Nat)
    (h : 1 ≤ rep) : runScanAux a rep (a :: a :: t) = true := by
  unfold runScanAux
  rw [if_pos rfl]
  by_cases h3 : rep + 1 ≥ 3
  · rw [if_pos h3]
  · rw [if_neg h3]
    unfold runScanAux
    rw [if_pos rfl, if_pos (by omega)]

theorem runScanAux_triple (pre : List String) (a : String) (t : List String) :
    ∀ (prev : String) (rep : Nat), 1 ≤ rep →
      runScanAux prev rep (pre ++ a :: a :: a :: t) = true := by
  induction pre with
  | nil =>
    intro prev rep hrep
    show runScanAux prev rep (a :: a :: a :: t) = true
    unfold runScanAux
    by_cases hp : a = prev
    · rw [if_pos hp]
      by_cases h3 : rep + 1 ≥ 3
      · rw [if_pos h3]
      · rw [if_neg h3]
        exact runScanAux_zero a t (rep + 1) (by omega)
    · rw [if_neg hp]
      exact runScanAux_zero a t 1 le_rfl
  | cons b pre ih =>
    intro prev rep hrep
    show runScanAux prev rep (b :: (pre ++ a :: a :: a :: t)) = true
    unfold runScanAux
    by_cases hb : b = prev
    · rw [if_pos hb]
      by_cases h3 : rep + 1 ≥ 3
      · rw [if_pos h3]
      · rw [if_neg h3]
        exact ih b (rep + 1) (by omega)
    · rw [if_neg hb]
      exact ih b 1 le_rfl

theorem runScan_of_triple (l : List String) (h : hasTripleRun l) :
    runScan l = true := by
  obtain ⟨pre, a, t, hl⟩ := h
  subst hl
  cases pre with
  | nil =>
    simp only [List.nil_append]
    unfold runScan
    exact runScanAux_zero a t 1 le_rfl
  | cons b pre =>
    simp only [List.cons_append]
    unfold runScan
    have : pre ++ [a, a, a] ++ t = pre ++ a :: a :: a :: t := by
      simp
    rw [this]
    exact runScanAux_triple pre a t b 1 le_rfl

theorem equalSegmentSlices_refl (a : List String) :
    equalSegmentSlices a a = true := by
  unfold equalSegmentSlices
  rw [if_neg (by omega)]
  rw [List.all_eq_true]
  intro x hx
  induction a with
  | nil => simp at hx
  | cons y ys ih =>
    rcases List.mem_cons.mp hx with h | h
    · subst h; simp
    · exact ih h

theorem slice_at_head (blk rest : List String) (L : Nat) (hL : blk.length = L) :
    ((blk ++ rest).take L) = blk := by
  rw [← hL]
  exact List.take_left blk rest

theorem cycleInner_two_steps (pre blk t : List String) (L : Nat)
    (hL : blk.length = L) (h2 : 2 ≤ L) (fuel : Nat) (hf : 2 ≤ fuel) :
    cycleInnerAux (pre ++ blk ++ blk ++ blk ++ t) L 3
      (pre ++ blk ++ blk ++ blk ++ t).length pre.length fuel
      (pre.length + L) 1 = true := by
  obtain ⟨f, rfl⟩ : ∃ f, fuel = f + 2 := ⟨fuel - 2, by omega⟩
  set X := pre ++ blk ++ blk ++ blk ++ t with hX
  have hn : X.length = pre.length + L + L + L + t.length := by
    simp [hX, List.length_append, hL]
    omega
  have s0 : (X.drop pre.length).take L = blk := by
    have : X = pre ++ (blk ++ blk ++ blk ++ t) := by simp [hX]
    rw [this, List.drop_left]
    have : blk ++ blk ++ blk ++ t = blk ++ (blk ++ blk ++ t) := by simp
    rw [this]
    exact slice_at_head _ _ _ hL
  have s1 : (X.drop (pre.length + L)).take L = blk := by
    have hXe : X = (pre ++ blk) ++ (blk ++ (blk ++ t)) := by simp [hX]
    have hlen : (pre ++ blk).length = pre.length + L := by
      simp [List.length_append, hL]
    rw [hXe, ← hlen, List.drop_left]
    exact slice_at_head _ _ _ hL
  have s2 : (X.drop (pre.length + L + L)).take L = blk := by
    have hXe : X = (pre ++ blk ++ blk) ++ (blk ++ t) := by simp [hX]
    have hlen : (pre ++ blk ++ blk).length = pre.length + L + L := by
      simp [List.length_append, hL]
      omega
    rw [hXe, ← hlen, List.drop_left]
    exact slice_at_head _ _ _ hL
  show cycleInnerAux X L 3 X.length pre.length (f + 2) (pre.length + L) 1 = true
  unfold cycleInnerAux
  rw [if_pos (by omega), s0, s1, equalSegmentSlices_refl, if_pos rfl,
    if_neg (by omega)]
  unfold cycleInnerAux
  rw [if_pos (by omega), s0, s2, equalSegmentSlices_refl, if_pos rfl,
    if_pos (by omega)]

theorem hasRepeatedCycle_of (l : List String) (L : Nat) (h2 : 2 ≤ L)
    (pre blk t : List String) (hL : blk.length = L)
    (hl : l = pre ++ blk ++ blk ++ blk ++ t) :
    hasRepeatedCycle l L 3 = true := by
  subst hl
  have hn : (pre ++ blk ++ blk ++ blk ++ t).length =
      pre.length + L + L + L + t.length := by
    simp [List.length_append, hL]
    omega
  unfold hasRepeatedCycle
  rw [if_neg (by omega)]
  rw [List.any_eq_true]
  refine ⟨pre.length, List.mem_range.mpr (by omega), ?_⟩
  exact cycleInner_two_steps pre blk t L hL h2 _ (by omega)

theorem hasPathLoops_of_decl (segs : List String) (h : declLoopy segs) :
    hasPathLoops segs = true := by
  unfold hasPathLoops
  by_cases hlen : segs.length > 128
  · rw [if_pos hlen]
  · rw [if_neg hlen]
    dsimp only
    rcases h with h | h | h
    · omega
    · rw [if_pos (runScan_of_triple _ h)]
    · by_cases hrs : runScan (segs.map goToLower) = true
      · rw [if_pos hrs]
      · rw [if_neg hrs]
        obtain ⟨L, pre, blk, t, hL2, hL4, hblk, heq⟩ := h
        have hlenl : (segs.map goToLower).length =
            pre.length + L + L + L + t.length := by
          rw [heq]
          simp [List.length_append, hblk]
          omega
        rw [List.any_eq_true]
        refine ⟨L, ?_, hasRepeatedCycle_of _ L hL2 pre blk t hblk heq⟩
        rw [List.mem_filter]
        constructor
        · interval_cases L <;> simp
        · simp only [decide_eq_true_eq]
          omega

theorem cleanSegmentsOf_empty : cleanSegmentsOf "" = [] := by
  rfl

theorem cleanPath_none_of_loopy (p : String)
    (h : declLoopy (cleanSegments p)) : cleanPath p = none := by
  unfold cleanSegments at h
  unfold cleanPath
  by_cases h1 : goTrimSpace p = ""
  · rw [if_pos h1] at h
    exact absurd h declLoopy_nil
  · rw [if_neg h1] at h ⊢
    dsimp only at h ⊢
    by_cases h2 : goTrimCut (collapseSlashes (backslashToSlash (goTrimSpace p)))
        ['/'] = ""
    · rw [h2] at h
      rw [cleanSegmentsOf_empty] at h
      exact absurd h declLoopy_nil
    · rw [if_neg h2]
      by_cases h3 : cleanSegmentsOf
          (goTrimCut (collapseSlashes (backslashToSlash (goTrimSpace p)))
            ['/']) = []
      · rw [h3] at h
        exact absurd h declLoopy_nil
      · rw [if_neg h3, if_pos (hasPathLoops_of_decl _ h)]

set_option maxHeartbeats 4000000 in
/-- C4 counterexample: a URL whose cleaned path has exactly 128 pairwise
distinct segments is accepted by NormalizeURL (the code rejects only
strictly more than 128 segments). -/
theorem claim_c4_counterexample :
    parseResolve none cand128 =
      some { Scheme := "http", Host := "t", Path := path128 } ∧
    128 ≤ (cleanSegments path128).length ∧
    (NormalizeURL none cand128).isSome = true := by
  refine ⟨by decide, by decide, by decide⟩

/-- C4 amended: NormalizeURL rejects every candidate whose resolved
cleaned path has more than 128 segments, or a run of three consecutive
case-insensitively identical segments, or a length-2..4 segment cycle
repeated three times. -/
theorem claim_c4_normalize_url_loop_reject :
    ∀ (base : Option GoURL) (cand : String) (u : GoURL),
      parseResolve base cand = some u →
      declLoopy (cleanSegments u.Path) →
      NormalizeURL base cand = none := by
  intro base cand u hp hl
  unfold NormalizeURL
  rw [hp]
  dsimp only
  rw [cleanPath_none_of_loopy u.Path hl]

/-- C4 witness: the S5 looping path is rejected. -/
theorem claim_c4_witness :
    NormalizeURL none "http://t/a/b/a/b/a/b" = none :=
  claim_c4_normalize_url_loop_reject none "http://t/a/b/a/b/a/b"
    { Scheme := "http", Host := "t", Path := "/a/b/a/b/a/b" } (by decide)
    (Or.inr (Or.inr ⟨2, [], ["a", "b"], [], by omega, by omega, rfl,
      by decide⟩))

/-! ## C1: canonical-key invariance -/

theorem dedupAux_sublist (last : String) (l : List String) :
    (dedupAux last l).Sublist l := by
  induction l generalizing last with
  | nil => exact List.Sublist.refl _
  | cons v vs ih =>
    by_cases h : v = last
    · simp only [dedupAux, if_pos h]
      exact (ih last).cons v
    · simp only [dedupAux, if_neg h]
      exact (ih v).cons₂ v

theorem mem_dedupAux (x : String) : ∀ (l : List String) (last : String),
    x ∈ l → x ≠ last → x ∈ dedupAux last l := by
  intro l
  induction l with
  | nil => intro last h _; exact absurd h (List.not_mem_nil x)
  | cons v vs ih =>
    intro last hx hne
    by_cases h : v = last
    · simp only [dedupAux, if_pos h]
      rcases List.mem_cons.mp hx with h1 | h1
      · exact absurd (h1.trans h) hne
      · exact ih last h1 hne
    · simp only [dedupAux, if_neg h]
      by_cases h2 : x = v
      · subst h2; exact List.mem_cons_self _ _
      · rcases List.mem_cons.mp hx with h1 | h1
        · exact absurd h1 h2
        · exact List.mem_cons_of_mem v (ih v h1 h2)

theorem dedupAux_nodup : ∀ (l : List String) (last : String),
    List.Sorted strR l → (∀ y ∈ l, strR last y) →
    (dedupAux last l).Nodup ∧ ∀ y ∈ dedupAux last l, y ≠ last := by
  intro l
  induction l with
  | nil =>
    intro last _ _
    exact ⟨List.nodup_nil, fun y hy => absurd hy (List.not_mem_nil y)⟩
  | cons v vs ih =>
    intro last hs hlast
    rw [List.sorted_cons] at hs
    by_cases h : v = last
    · simp only [dedupAux, if_pos h]
      exact ih last hs.2 (fun y hy => hlast y (List.mem_cons_of_mem v hy))
    · simp only [dedupAux, if_neg h]
      have hih := ih v hs.2 hs.1
      constructor
      · rw [List.nodup_cons]
        exact ⟨fun hmem => (hih.2 v hmem) rfl, hih.1⟩
      · intro y hy
        rcases List.mem_cons.mp hy with h1 | h1
        · subst h1; exact h
        · intro hc
          subst hc
          have hyvs : y ∈ vs := (dedupAux_sublist v vs).subset h1
          exact h (strR_antisymm v y (hs.1 y hyvs) (hlast v (List.mem_cons_self v vs)))

theorem dedupe_nodup (l : List String) (hs : List.Sorted strR l) :
    (dedupeSortedStrings l).Nodup := by
  cases l with
  | nil => exact List.nodup_nil
  | cons v vs =>
    rw [List.sorted_cons] at hs
    have hih := dedupAux_nodup vs v hs.2 hs.1
    simp only [dedupeSortedStrings]
    rw [List.nodup_cons]
    exact ⟨fun hmem => (hih.2 v hmem) rfl, hih.1⟩

theorem dedupe_sorted (l : List String) (hs : List.Sorted strR l) :
    List.Sorted strR (dedupeSortedStrings l) := by
  cases l with
  | nil => exact hs
  | cons v vs =>
    have hsub : (dedupeSortedStrings (v :: vs)).Sublist (v :: vs) := by
      simp only [dedupeSortedStrings]
      exact (dedupAux_sublist v vs).cons₂ v
    exact List.Pairwise.sublist hsub hs

theorem mem_dedupe (l : List String) (x : String) :
    x ∈ dedupeSortedStrings l ↔ x ∈ l := by
  constructor
  · intro h
    cases l with
    | nil => exact absurd h (List.not_mem_nil x)
    | cons v vs =>
      simp only [dedupeSortedStrings] at h
      rcases List.mem_cons.mp h with h1 | h1
      · subst h1; exact List.mem_cons_self _ _
      · exact List.mem_cons_of_mem v ((dedupAux_sublist v vs).subset h1)
  · intro h
    cases l with
    | nil => exact absurd h (List.not_mem_nil x)
    | cons v vs =>
      simp only [dedupeSortedStrings]
      by_cases h2 : x = v
      · subst h2; exact List.mem_cons_self _ _
      · rcases List.mem_cons.mp h with h1 | h1
        · exact absurd h1 h2
        · exact List.mem_cons_of_mem v (mem_dedupAux x vs v h1 h2)

theorem dedupe_sort_eq (xs ys : List String)
    (h : ∀ x, x ∈ xs ↔ x ∈ ys) :
    dedupeSortedStrings (sortStrings xs) = dedupeSortedStrings (sortStrings ys) := by
  have hx := sortStrings_sorted xs
  have hy := sortStrings_sorted ys
  have hmem : ∀ a, a ∈ dedupeSortedStrings (sortStrings xs) ↔
      a ∈ dedupeSortedStrings (sortStrings ys) := by
    intro a
    rw [mem_dedupe, mem_dedupe, (sortStrings_perm xs).mem_iff,
      (sortStrings_perm ys).mem_iff]
    exact h a
  have hperm := (List.perm_ext_iff_of_nodup (dedupe_nodup _ hx)
    (dedupe_nodup _ hy)).mpr hmem
  exact sorted_strR_unique _ _ hperm (dedupe_sorted _ hx) (dedupe_sorted _ hy)

theorem appendVal_keys (k v : String) : ∀ (l : List (String × List String)),
    (appendVal l k v).map Prod.fst =
      if k ∈ l.map Prod.fst then l.map Prod.fst
      else l.map Prod.fst ++ [k] := by
  intro l
  induction l with
  | nil => simp [appendVal]
  | cons p rest ih =>
    obtain ⟨k0, vs⟩ := p
    by_cases h : k0 = k
    · subst h
      simp [appendVal]
    · by_cases h2 : k ∈ rest.map Prod.fst
      · simp [appendVal, h, h2, ih, Ne.symm h]
      · simp [appendVal, h, h2, ih, Ne.symm h]

theorem appendVal_nodup (l : List (String × List String)) (k v : String)
    (hn : (l.map Prod.fst).Nodup) :
    ((appendVal l k v).map Prod.fst).Nodup := by
  rw [appendVal_keys]
  by_cases h : k ∈ l.map Prod.fst
  · rw [if_pos h]; exact hn
  · rw [if_neg h]
    simp [List.nodup_append, hn, h]

theorem parseQuerySegs_nodup :
    ∀ (segs : List String) (acc res : List (String × List String)),
    (acc.map Prod.fst).Nodup → parseQuerySegs acc segs = some res →
    (res.map Prod.fst).Nodup := by
  intro segs
  induction segs with
  | nil =>
    intro acc res hn h
    simp only [parseQuerySegs] at h
    cases h
    exact hn
  | cons seg rest ih =>
    intro acc res hn h
    simp only [parseQuerySegs] at h
    split at h
    · exact absurd h (by simp)
    · split at h
      · exact ih acc res hn h
      · split at h
        · exact ih _ res (appendVal_nodup acc _ _ hn) h
        · exact absurd h (by simp)

theorem goParseQuery_nodup (q : String) (l : List (String × List String))
    (h : goParseQuery q = some l) : (l.map Prod.fst).Nodup := by
  rw [goParseQuery] at h
  by_cases hq : q = ""
  · rw [if_pos hq] at h
    cases h
    exact List.nodup_nil
  · rw [if_neg hq] at h
    exact parseQuerySegs_nodup _ _ _ (by simp) h

theorem foldl_congr_fn {α β : Type} (f g : α → β → α) (init : α) (l : List β)
    (h : ∀ a b, f a b = g a b) : List.foldl f init l = List.foldl g init l := by
  induction l generalizing init with
  | nil => rfl
  | cons x xs ih =>
    rw [List.foldl_cons, List.foldl_cons, h init x]
    exact ih _

theorem NormalizeQuery_congr (q qq : String) (h : queryEquiv q qq) :
    NormalizeQuery q = NormalizeQuery qq := by
  rcases h with h | ⟨l, ll, hq1, hq2, hk, hv⟩
  · rw [h]
  · have hnl := goParseQuery_nodup q l hq1
    have hnll := goParseQuery_nodup qq ll hq2
    have hmem : ∀ x, x ∈ l.map Prod.fst ↔ x ∈ ll.map Prod.fst := by
      intro x
      rw [← List.mem_toFinset, ← List.mem_toFinset, hk]
    have hperm := (List.perm_ext_iff_of_nodup hnl hnll).mpr hmem
    have hkeys := sortStrings_eq_of_perm _ _ hperm
    have hvals : ∀ k, dedupeSortedStrings (sortStrings (lookupVals l k)) =
        dedupeSortedStrings (sortStrings (lookupVals ll k)) := by
      intro k
      refine dedupe_sort_eq _ _ ?_
      intro x
      rw [← List.mem_toFinset, ← List.mem_toFinset, hv k]
    rw [NormalizeQuery, NormalizeQuery, hq1, hq2]
    dsimp only
    rw [hkeys]
    refine foldl_congr_fn _ _ _ _ ?_
    intro acc k
    dsimp only
    rw [hvals k]

theorem normQuery_empty : NormalizeQuery "" = "" := by decide

theorem ite_normQuery (q : String) :
    (if q ≠ "" then NormalizeQuery q else q) = NormalizeQuery q := by
  by_cases h : q = ""
  · rw [if_neg (fun hc => hc h), h]
    exact normQuery_empty.symm
  · rw [if_pos h]

theorem effPort_congr (v w : GoURL) (hs : v.Scheme = w.Scheme)
    (hh : v.Host = w.Host) : effPort v = effPort w := by
  rw [effPort, effPort, hs, hh]

theorem normalizeHost_effPort (v : GoURL) :
    normalizeHost v =
      (if effPort v = "" then goToLower (hostnameOf v.Host)
       else goToLower (hostnameOf v.Host) ++ ":" ++ effPort v) := by
  rw [normalizeHost, effPort]
  by_cases h0 : portOf v.Host = ""
  · simp [h0]
  · by_cases hd : (v.Scheme = "http" ∧ portOf v.Host = "80") ∨
        (v.Scheme = "https" ∧ portOf v.Host = "443")
    · simp [h0, hd]
    · simp [h0, hd]

theorem normalizeHost_congr (v w : GoURL)
    (hh : goToLower (hostnameOf v.Host) = goToLower (hostnameOf w.Host))
    (hp : effPort v = effPort w) : normalizeHost v = normalizeHost w := by
  rw [normalizeHost_effPort, normalizeHost_effPort, hh, hp]

theorem mk_ite_rawQuery (c : Prop) [Decidable c] (S O H P RP f x y : String) :
    (if c then GoURL.mk S O H P RP x f else GoURL.mk S O H P RP y f) =
      GoURL.mk S O H P RP (if c then x else y) f := by
  by_cases h : c <;> simp [h]

/-- C1: canonicalRequestKey is invariant under fragment changes, scheme and
host letter-case, default-port presence, and the order of query keys and
the order or multiplicity of repeated values within a key; and scenario S1
holds: GET https://EX.com:443/a?b=2&a=1#frag then GET
https://ex.com/a/?a=1&b=2 give DuplicateRequest false then true. -/
theorem claim_c1_canonical_key_invariance :
    (∀ (m b U W : String) (u w : GoURL),
        U ≠ "" → W ≠ "" →
        parseURL U = some u → parseURL W = some w →
        goToLower u.Scheme = goToLower w.Scheme →
        u.Opq = w.Opq →
        goToLower (hostnameOf u.Host) = goToLower (hostnameOf w.Host) →
        effPortKey u = effPortKey w →
        u.Path = w.Path →
        u.RawPath = w.RawPath →
        queryEquiv u.RawQuery w.RawQuery →
        canonicalRequestKey m U b = canonicalRequestKey m W b) ∧
    ((DuplicateRequest {} "GET" "https://EX.com:443/a?b=2&a=1#frag" "").1 = false ∧
      (DuplicateRequest
          (DuplicateRequest {} "GET" "https://EX.com:443/a?b=2&a=1#frag" "").2
          "GET" "https://ex.com/a/?a=1&b=2" "").1 = true) := by
  constructor
  · intro m b U W u w hU hW hpu hpw hs ho hh hport hpath hrp hq
    obtain ⟨us, uo, uh, up, urp, urq, uf⟩ := u
    obtain ⟨ws, wo, wh, wp, wrp, wrq, wf⟩ := w
    dsimp only at hs ho hh hport hpath hrp hq
    subst ho hpath hrp
    rw [effPortKey, effPortKey] at hport
    dsimp only at hport
    have h1 : effPort ⟨goToLower ws, uo, uh, up, urp, urq, ""⟩ =
        effPort ⟨goToLower us, uo, uh, up, urp, urq, uf⟩ :=
      effPort_congr _ _ hs.symm rfl
    have h2 : effPort ⟨goToLower ws, uo, wh, up, urp, wrq, wf⟩ =
        effPort ⟨goToLower ws, uo, wh, up, urp, wrq, ""⟩ :=
      effPort_congr _ _ rfl rfl
    have hhost : normalizeHost ⟨goToLower ws, uo, uh, up, urp, urq, ""⟩ =
        normalizeHost ⟨goToLower ws, uo, wh, up, urp, wrq, ""⟩ :=
      normalizeHost_congr _ _ hh ((h1.trans hport).trans h2)
    unfold canonicalRequestKey
    rw [hpu, hpw]
    rw [if_neg hU, if_neg hW]
    dsimp only
    rw [hs, hhost, mk_ite_rawQuery, mk_ite_rawQuery, ite_normQuery,
      ite_normQuery, NormalizeQuery_congr urq wrq hq]
  · exact ⟨by decide, by decide⟩

/-- C1 witness: two URLs differing in host case, default-port presence,
fragment, query-key order and value multiplicity get equal keys. -/
theorem claim_c1_witness :
    canonicalRequestKey "GET" "https://EX.com:443/a?b=2&a=1#frag" "" =
      canonicalRequestKey "GET" "https://ex.com/a?a=1&b=2&a=1" "" := by
  refine claim_c1_canonical_key_invariance.1 "GET" ""
      "https://EX.com:443/a?b=2&a=1#frag" "https://ex.com/a?a=1&b=2&a=1"
      ⟨"https", "", "EX.com:443", "/a", "", "b=2&a=1", "frag"⟩
      ⟨"https", "", "ex.com", "/a", "", "a=1&b=2&a=1", ""⟩
      (by decide) (by decide) (by decide) (by decide) (by decide) (by decide)
      (by decide) (by decide) (by decide) (by decide) ?_
  refine Or.inr ⟨[("b", ["2"]), ("a", ["1"])], [("a", ["1", "1"]), ("b", ["2"])],
    by decide, by decide, by decide, fun k => ?_⟩
  by_cases hka : k = "a"
  · subst hka; decide
  · by_cases hkb : k = "b"
    · subst hkb; decide
    · have ha : (k == "a") = false := beq_eq_false_iff_ne.mpr hka
      have hb : (k == "b") = false := beq_eq_false_iff_ne.mpr hkb
      simp [lookupVals, List.lookup, ha, hb]
